import Mathlib

/-!
Verification of the numbered-musical-notation compiler (`src/nmn.py`,
`src/core.py`, `src/writer.py`): a shallow embedding of the data model and
the operations the specification's claims are about, together with theorems
settling those claims.

Conventions of the embedding:
* Python `Fraction` is modelled by `ℚ`; Python ints by `ℤ`/`ℕ`.
* Python exceptions (`ValueError`, `IndexError`, `AssertionError`,
  nontermination) are modelled by `Except String`; error strings keep the
  gist of the source messages.
* Python list indexing (which wraps one time around for negative indices and
  raises `IndexError` out of range) is modelled by `pyGet`/`pySet`.
* Python `%` and `//` (floor conventions) on integers are modelled by
  `Int.emod`/`Int.ediv` (identical for the positive divisors used here), and
  on `Fraction` by `pyMod`.
* mutation is modelled by explicit state passing; `while` loops by
  fuel-indexed recursion (fuel exhaustion models nontermination as an error).
-/

set_option allowUnsafeReducibility true in
attribute [semireducible] Rat.add Rat.mul Rat.sub Rat.inv Rat.ofScientific Rat.div

deriving instance DecidableEq for Except

namespace NMN

/-- Python list indexing `l[i]`: a negative index wraps once from the end,
anything else out of range raises `IndexError`. -/
def pyGet (l : List α) (i : ℤ) : Except String α :=
  let j : ℤ := if i < 0 then i + l.length else i
  if j < 0 then Except.error "IndexError: list index out of range"
  else
    match l[j.toNat]? with
    | some a => Except.ok a
    | none => Except.error "IndexError: list index out of range"

/-- Python list assignment `l[i] = a` with the same index conventions. -/
def pySet (l : List α) (i : ℤ) (a : α) : Except String (List α) :=
  let j : ℤ := if i < 0 then i + l.length else i
  if j < 0 ∨ (l.length : ℤ) ≤ j then Except.error "IndexError: list assignment index out of range"
  else Except.ok (l.set j.toNat a)

/-- Python `int(q)` on a `Fraction`: truncation toward zero. -/
def pyInt (q : ℚ) : ℤ := if 0 ≤ q then ⌊q⌋ else ⌈q⌉

/-- Python `a % b` on `Fraction`s (floor remainder); only used with `b ≠ 0`. -/
def pyMod (a b : ℚ) : ℚ := a - b * ⌊a / b⌋

/-- Python `int.bit_length()` (fuel-indexed so that it reduces in the kernel). -/
def bitLenAux : ℕ → ℕ → ℕ
  | 0, _ => 0
  | fuel + 1, n => if n = 0 then 0 else bitLenAux fuel (n / 2) + 1

/-- Python `n.bit_length()` for a natural number `n`. -/
def bit_length (n : ℕ) : ℕ := bitLenAux n n

/-- `Time = namedtuple('Time', ['upper', 'lower', 'hyphen'])`; `upper = None`
is a free signature, `hyphen = None` means non-hyphen mode. -/
structure Time where
  upper : Option ℕ
  lower : ℕ
  hyphen : Option ℕ
deriving DecidableEq, Repr

/-- `class Note` of `nmn.py`: `_name` uses the source's sentinel integers
(`0` rest, `-1` rest-at-end, `-2` rest-to-match-lyrics, `1..7` degrees);
`lines`/`dots` are `None` exactly when the notation is unresolved;
`tie.1`/`tie.2` are Python `tie[0]`/`tie[1]`. -/
structure Note where
  acc : Option ℤ
  _name : ℤ
  octave : ℤ
  duration : ℚ
  lines : Option ℤ
  dots : Option ℕ
  tie : Bool × Bool
deriving DecidableEq, Repr

def Note.REST : ℤ := 0

def Note.REST_AT_END : ℤ := -1

def Note.REST_TO_MATCH_LYRICS : ℤ := -2

/-- property `Note.name`. -/
def Note.name (n : Note) : ℤ := if 0 ≤ n._name then n._name else 0

/-- property `Note.is_rest`. -/
def Note.is_rest (n : Note) : Bool := n._name ≤ 0

/-- property `Note.to_match_lyrics`. -/
def Note.to_match_lyrics (n : Note) : Bool :=
  !n.tie.1 && (decide (0 < n._name) || decide (n._name = Note.REST_TO_MATCH_LYRICS))

/-- property `Note.may_start_new_line`. -/
def Note.may_start_new_line (n : Note) : Bool :=
  decide (n._name ≠ Note.REST_AT_END) && !n.tie.1

/-- `Note.__init__`: `dashes = None` (together with `underlines`/`dots`)
leaves the notation unresolved, otherwise `lines` is `dashes` if positive
else `-underlines`. -/
def Note.init (acc : Option ℤ) (name : ℤ) (octave : ℤ) (duration : ℚ)
    (dashes : Option ℕ) (underlines : ℕ) (dots : ℕ) (tie : Bool × Bool) : Note :=
  match dashes with
  | none =>
    { acc := acc, _name := name, octave := octave, duration := duration,
      lines := none, dots := none, tie := tie }
  | some d =>
    { acc := acc, _name := name, octave := octave, duration := duration,
      lines := some (if 0 < d then (d : ℤ) else -(underlines : ℤ)),
      dots := some dots, tie := tie }

/-!  `Note.init_possible_ends(n, m)`: the table of legal ending points.
The Python code accumulates into per-index sets with nested loops carrying
`break`s; the embedding enumerates the same `(index, end)` pairs (inner
`break`s become truncated recursions / `takeWhile` over the same monotone
conditions) and produces each index's sorted set. -/

/-- Inner loop `for j in range(k-1,-1,-1): start -= 1 << j; if start < 0:
break; ends[start].add(end)` (the `js` argument is `[k-1, ..., 0]`). -/
def jLoopStart (endv : ℕ) : List ℕ → ℤ → List (ℕ × ℕ)
  | [], _ => []
  | j :: js, start =>
    let s : ℤ := start - 2 ^ j
    if s < 0 then []
    else (s.toNat, endv) :: jLoopStart endv js s

/-- Inner loop `for j in range(k-1,-1,-1): end += 1 << j; if end > num:
break; ends[start].add(end)`. -/
def jLoopEnd (start num : ℕ) : List ℕ → ℕ → List (ℕ × ℕ)
  | [], _ => []
  | j :: js, endv =>
    let e := endv + 2 ^ j
    if num < e then []
    else (start, e) :: jLoopEnd start num js e

/-- The `(index, end)` pairs added by the `k < n` rule of
`init_possible_ends`. -/
def endsEntriesLow (n num : ℕ) : List (ℕ × ℕ) :=
  (List.range n).flatMap (fun k =>
    (((List.range (num + 1)).map (· * 2 ^ k)).takeWhile (fun a => a + 2 ^ k ≤ num)).flatMap (fun a =>
      let e := a + 2 ^ k
      [(a, e)]
      ++ (if (a / 2 ^ k) % 2 = 0 ∧ 0 < k ∧ e + 2 ^ (k - 1) < num then
            [(a + 2 ^ (k - 1), e + 2 ^ (k - 1))]
          else [])
      ++ (if (a / 2 ^ k) % 2 = 1 then jLoopStart e ((List.range k).reverse) (a : ℤ)
          else jLoopEnd a num ((List.range k).reverse) e)))

/-- The `(index, end)` pairs added by the `k >= n` rule of
`init_possible_ends`. -/
def endsEntriesHigh (n m num : ℕ) : List (ℕ × ℕ) :=
  ((List.range (bit_length m)).map (· + n)).flatMap (fun k =>
    (((List.range (num + 1)).map (· * 2 ^ n)).takeWhile (fun a => a + 2 ^ k ≤ num)).flatMap (fun a =>
      let e := a + 2 ^ k
      [(a, e)]
      ++ (if 0 < k ∧ e + 2 ^ (k - 1) < num then [(a + 2 ^ (k - 1), e + 2 ^ (k - 1))] else [])
      ++ jLoopStart e ((List.range k).reverse) (a : ℤ)
      ++ jLoopEnd a num ((List.range k).reverse) e))

/-- `Note.possible_ends[(n, m)]` after `init_possible_ends(n, m)`: entry `i`
is the sorted set of legal ending points reachable from start `i`. -/
def possibleEnds (n m : ℕ) : List (List ℕ) :=
  let num := m * 2 ^ n
  let entries := endsEntriesLow n num ++ endsEntriesHigh n m num
  (List.range num).map (fun i =>
    (((entries.filter (fun p => p.1 = i)).map (·.2)).dedup).insertionSort (· ≤ ·))

/-- `init_possible_ends` with the Python error on a negative shift count
(`num = m << n` with `n < 0`). -/
def possibleEndsE (n : ℤ) (m : ℕ) : Except String (List (List ℕ)) :=
  if n < 0 then Except.error "ValueError: negative shift count"
  else Except.ok (possibleEnds n.toNat m)

/-- The `for e_rel in ends_unit[start // unit]` scan of `split_note`
(`break` on `e > end`, `continue` for a non-unit span when `lower = 8`,
otherwise `subend = e`). -/
def unitScan (lower : ℕ) (unit startI endI : ℤ) : List ℕ → Option ℤ → Option ℤ
  | [], acc => acc
  | e_rel :: rest, acc =>
    let e : ℤ := (e_rel : ℤ) * unit
    if endI < e then acc
    else if lower = 8 ∧ e ≠ startI + unit then unitScan lower unit startI endI rest acc
    else unitScan lower unit startI endI rest (some e)

/-- The `for e_rel in ends[start % (1 << n)]` scan of `split_note`
(`break` on `e > end` or on a span too long for the meter, otherwise keep
the largest `e`). -/
def dotsScan (lower : ℕ) (unit base startI endI : ℤ) : List ℕ → Option ℤ → Option ℤ
  | [], acc => acc
  | e_rel :: rest, acc =>
    let e : ℤ := base + e_rel
    if endI < e then acc
    else
      let len := e - startI
      if (lower = 4 ∧ unit * 2 ≤ len) ∨ (lower = 8 ∧ unit < len) then acc
      else
        match acc with
        | none => dotsScan lower unit base startI endI rest (some e)
        | some s =>
          if s < e then dotsScan lower unit base startI endI rest (some e)
          else dotsScan lower unit base startI endI rest acc

/-- One search for `subend` in the body of `split_note`'s `while` loop:
the unit-multiple rule (guarded by `start % unit == 0`) followed by the
dotted-span rule, both scanning the memoized ending tables. -/
def findSubend (lower : ℕ) (unit : ℤ) (n : ℕ) (ends ends_unit : List (List ℕ))
    (p : ℕ) (endI : ℤ) (beat : ℚ) : Except String ℤ :=
  let startI : ℤ := pyInt (beat * (2 ^ p : ℚ))
  let sub0 : Except String (Option ℤ) :=
    if Int.emod startI unit = 0 then
      match pyGet ends_unit (Int.ediv startI unit) with
      | Except.error e => Except.error e
      | Except.ok lst => Except.ok (unitScan lower unit startI endI lst none)
    else Except.ok none
  match sub0 with
  | Except.error e => Except.error e
  | Except.ok subend0 =>
    match pyGet ends (Int.emod startI (2 ^ n)) with
    | Except.error e => Except.error e
    | Except.ok lst2 =>
      match dotsScan lower unit (startI - Int.emod startI (2 ^ n)) startI endI lst2 subend0 with
      | none => Except.error "ValueError: cannot find ending point"
      | some e => Except.ok e

/-- The sub-note emitted by one iteration of `split_note`'s `while` loop
(`subnote = note.copy()` with the new duration; the first sub-note gets
`tie[1]` when it does not already reach `start_beat + duration`, later
sub-notes get `tie[0]` and degrade a rest-to-match-lyrics name to a plain
rest). -/
def mkSubnote (note' : Note) (beat end_beat targetEnd : ℚ) (isFirst : Bool) : Note :=
  let subnote0 := { note' with duration := end_beat - beat }
  if isFirst then
    if end_beat ≠ targetEnd then { subnote0 with tie := (subnote0.tie.1, true) }
    else subnote0
  else
    let s1 := { subnote0 with tie := (true, subnote0.tie.2) }
    if note'._name = Note.REST_TO_MATCH_LYRICS then { s1 with _name := Note.REST } else s1

/-- `split_note`'s `while beat < start_beat + duration` loop: emit one
sub-note per iteration and advance `beat` to the chosen ending point. -/
def splitLoop (note' : Note) (lower : ℕ) (unit : ℤ) (n : ℕ)
    (ends ends_unit : List (List ℕ)) (p : ℕ) (endI : ℤ) (startBeat dur : ℚ) :
    ℕ → ℚ → Bool → Except String (List Note)
  | 0, _, _ => Except.error "nontermination: split loop fuel exhausted"
  | fuel + 1, beat, isFirst =>
    if beat < startBeat + dur then do
      let subend ← findSubend lower unit n ends ends_unit p endI beat
      let end_beat : ℚ := (subend : ℚ) / (2 ^ p : ℚ)
      let rest ← splitLoop note' lower unit n ends ends_unit p endI startBeat dur fuel end_beat false
      pure (mkSubnote note' beat end_beat (startBeat + dur) isFirst :: rest)
    else pure []

/-- The final re-tie pass of `split_note` (`i`-indexed; `total` is the
number of sub-notes): a rest's sub-notes get `tie = (False, False)`; a
non-rest's non-leading sub-notes get `tie[0] = True` and non-trailing ones
`tie[1] = True`. -/
def retieAux (restN : Bool) (total : ℕ) : ℕ → List Note → List Note
  | _, [] => []
  | i, sn :: rest =>
    (if restN then { sn with tie := (false, false) }
     else
       { sn with
         tie := ((if 0 < i then true else sn.tie.1),
                 (if i < total - 1 then true else sn.tie.2)) })
    :: retieAux restN total (i + 1) rest

def retie (orig : Note) (subs : List Note) : List Note :=
  retieAux orig.is_rest subs.length 0 subs

/-- The `unit, n, m, n_unit, m_unit` selection at the head of `split_note`
(the Python `if time.lower == 4: ... else: ...` cascade). -/
def splitParams (lower : ℕ) (u : ℕ) (p : ℕ) : Except String (ℤ × ℤ × ℕ × ℤ × ℕ) :=
  if lower = 4 then
    if u = 2 then Except.ok (2 ^ p, (p : ℤ) + 1, 1, 0, u)
    else if u = 3 then Except.ok (2 ^ p, (p : ℤ), 3, 0, u)
    else if u = 4 then Except.ok (2 ^ p, (p : ℤ) + 2, 1, 0, u)
    else Except.error "ValueError: unknown time.upper"
  else
    let unit : ℤ := pyInt ((3 / 2 : ℚ) * (2 ^ p : ℚ))
    if u = 6 then Except.ok (unit, (p : ℤ) - 1, 3, 0, 2)
    else if u = 9 then Except.ok (unit, (p : ℤ) - 1, 3, 0, 3)
    else if u = 12 then Except.ok (unit, (p : ℤ) - 1, 3, 2, 1)
    else Except.error "ValueError: unknown time.upper"

/-- `Note.split_note(time, start_beat, note)`.  The Python `while` loop is
`splitLoop` (fuel-indexed: one grid step per iteration at least, so the
chosen fuel is enough whenever the Python loop terminates); the final
re-tie pass is `retie`. -/
def Note.split_note (time : Time) (start_beat : ℚ) (note : Note) :
    Except String (List Note) :=
  if time.hyphen = none ∨ time.hyphen = some 0 then
    Except.error "ValueError: no need to split note"
  else
    match time.upper with
    | none => Except.error "ValueError: cannot split note for unknown upper"
    | some u =>
      let note' := { note with lines := (none : Option ℤ), dots := (none : Option ℕ) }
      let dur := note.duration
      let hy := time.hyphen.getD 0
      if bit_length hy < 3 then Except.error "ValueError: negative shift count"
      else
        let p : ℕ := bit_length hy - 3
        match splitParams time.lower u p with
        | Except.error e => Except.error e
        | Except.ok (unit, nI, m, nUnitI, m_unit) =>
          match possibleEndsE nI m with
          | Except.error e => Except.error e
          | Except.ok ends =>
            match possibleEndsE nUnitI m_unit with
            | Except.error e => Except.error e
            | Except.ok ends_unit =>
              let endI := pyInt ((start_beat + dur) * (2 ^ p : ℚ))
              let fuel := (endI - pyInt (start_beat * (2 ^ p : ℚ))).toNat + 2
              match splitLoop note' time.lower unit nI.toNat ends ends_unit p endI
                  start_beat dur fuel start_beat true with
              | Except.error e => Except.error e
              | Except.ok subs => Except.ok (retie note' subs)

/-- Sum of the durations of a list of notes. -/
def sumDur (l : List Note) : ℚ := (l.map Note.duration).sum

lemma sumDur_nil : sumDur [] = 0 := rfl

lemma sumDur_cons (a : Note) (l : List Note) : sumDur (a :: l) = a.duration + sumDur l := by
  simp [sumDur]

lemma exc_bind_ok (a : α) (f : α → Except ε β) : (Except.ok a >>= f) = f a := rfl

lemma exc_bind_err (e : ε) (f : α → Except ε β) :
    ((Except.error e : Except ε α) >>= f) = Except.error e := rfl

lemma exc_pure (a : α) : (pure a : Except ε α) = Except.ok a := rfl

lemma pyInt_le (q : ℚ) (h : 0 ≤ q) : (pyInt q : ℚ) ≤ q := by
  simp only [pyInt, if_pos h]
  exact Int.floor_le q

/-- `unitScan` only ever stores candidates that are at most `endI`. -/
lemma unitScan_le (lower : ℕ) (unit startI endI : ℤ) :
    ∀ (lst : List ℕ) (acc : Option ℤ),
      (∀ w, acc = some w → w ≤ endI) →
      ∀ v, unitScan lower unit startI endI lst acc = some v → v ≤ endI := by
  intro lst
  induction lst with
  | nil => intro acc hacc v hv; exact hacc v hv
  | cons e_rel rest ih =>
    intro acc hacc v hv
    simp only [unitScan] at hv
    split at hv
    · exact hacc v hv
    · split at hv
      · exact ih acc hacc v hv
      · refine ih (some ((e_rel : ℤ) * unit)) ?_ v hv
        intro w hw
        cases hw
        omega

/-- `dotsScan` only ever stores candidates that are at most `endI`. -/
lemma dotsScan_le (lower : ℕ) (unit base startI endI : ℤ) :
    ∀ (lst : List ℕ) (acc : Option ℤ),
      (∀ w, acc = some w → w ≤ endI) →
      ∀ v, dotsScan lower unit base startI endI lst acc = some v → v ≤ endI := by
  intro lst
  induction lst with
  | nil => intro acc hacc v hv; exact hacc v hv
  | cons e_rel rest ih =>
    intro acc hacc v hv
    simp only [dotsScan] at hv
    split at hv
    · exact hacc v hv
    · split at hv
      · exact hacc v hv
      · split at hv
        · refine ih (some (base + (e_rel : ℤ))) ?_ v hv
          intro w hw; cases hw; omega
        · split at hv
          · refine ih (some (base + (e_rel : ℤ))) ?_ v hv
            intro w hw; cases hw; omega
          · refine ih _ ?_ v hv
            intro w hw
            exact hacc w hw

lemma exc_bind_eq_ok {x : Except ε α} {f : α → Except ε β} {b : β}
    (h : (x >>= f) = Except.ok b) : ∃ a, x = Except.ok a ∧ f a = Except.ok b := by
  cases x with
  | error e => rw [exc_bind_err] at h; cases h
  | ok a => exact ⟨a, rfl, h⟩

/-- A successful `findSubend` yields an ending point at most `endI`. -/
lemma findSubend_le (lower : ℕ) (unit : ℤ) (n : ℕ) (ends ends_unit : List (List ℕ))
    (p : ℕ) (endI : ℤ) (beat : ℚ) (e : ℤ)
    (h : findSubend lower unit n ends ends_unit p endI beat = Except.ok e) : e ≤ endI := by
  simp only [findSubend] at h
  split at h
  · exact absurd h (by simp)
  · rename_i subend0 hsub0
    split at h
    · exact absurd h (by simp)
    · rename_i lst2 hlst2
      split at h
      · exact absurd h (by simp)
      · rename_i v hv
        injection h with heq
        subst heq
        refine dotsScan_le lower unit _ _ endI lst2 subend0 ?_ v hv
        intro w hw
        subst hw
        split at hsub0
        · split at hsub0
          · exact absurd hsub0 (by simp)
          · rename_i lst hlst
            injection hsub0 with h2
            exact unitScan_le lower unit _ endI lst none (by intro w hw'; cases hw') w h2
        · injection hsub0 with h2
          cases h2

lemma mkSubnote_duration (note' : Note) (beat end_beat targetEnd : ℚ) (isFirst : Bool) :
    (mkSubnote note' beat end_beat targetEnd isFirst).duration = end_beat - beat := by
  unfold mkSubnote
  split_ifs <;> rfl

lemma mkSubnote_name_rest (note' : Note) (beat end_beat targetEnd : ℚ)
    (h : note'._name = Note.REST_TO_MATCH_LYRICS) :
    (mkSubnote note' beat end_beat targetEnd false)._name = Note.REST := by
  unfold mkSubnote
  simp [h]

lemma splitLoop_sum (note' : Note) (lower : ℕ) (unit : ℤ) (n : ℕ)
    (ends ends_unit : List (List ℕ)) (p : ℕ) (endI : ℤ) (startBeat dur : ℚ)
    (hEnd : (endI : ℚ) ≤ (startBeat + dur) * (2 ^ p : ℚ)) :
    ∀ (fuel : ℕ) (beat : ℚ) (isFirst : Bool) (l : List Note),
      beat ≤ startBeat + dur →
      splitLoop note' lower unit n ends ends_unit p endI startBeat dur fuel beat isFirst =
        Except.ok l →
      sumDur l = startBeat + dur - beat := by
  intro fuel
  induction fuel with
  | zero =>
    intro beat isFirst l hb hok
    exact absurd hok (by simp [splitLoop])
  | succ fuel ih =>
    intro beat isFirst l hb hok
    rw [splitLoop] at hok
    split at hok
    · rename_i hlt
      obtain ⟨subend, hfs, hok⟩ := exc_bind_eq_ok hok
      obtain ⟨rest, hrec, hok⟩ := exc_bind_eq_ok hok
      rw [exc_pure] at hok
      injection hok with hok
      subst hok
      have hse : subend ≤ endI := findSubend_le _ _ _ _ _ _ _ _ _ hfs
      have h2p : (0 : ℚ) < (2 ^ p : ℚ) := by positivity
      have heb : ((subend : ℚ) / (2 ^ p : ℚ)) ≤ startBeat + dur := by
        rw [div_le_iff₀ h2p]
        calc (subend : ℚ) ≤ (endI : ℚ) := by exact_mod_cast hse
          _ ≤ (startBeat + dur) * (2 ^ p : ℚ) := hEnd
      have hrest := ih _ false rest heb hrec
      rw [sumDur_cons, mkSubnote_duration, hrest]
      ring
    · rename_i hnlt
      rw [exc_pure] at hok
      injection hok with hok
      subst hok
      have hbe : beat = startBeat + dur := le_antisymm hb (not_lt.mp hnlt)
      rw [sumDur_nil, hbe]
      ring

lemma splitLoop_ne_nil (note' : Note) (lower : ℕ) (unit : ℤ) (n : ℕ)
    (ends ends_unit : List (List ℕ)) (p : ℕ) (endI : ℤ) (startBeat dur : ℚ)
    (fuel : ℕ) (beat : ℚ) (isFirst : Bool) (l : List Note)
    (hlt : beat < startBeat + dur)
    (hok : splitLoop note' lower unit n ends ends_unit p endI startBeat dur fuel beat isFirst =
      Except.ok l) : l ≠ [] := by
  cases fuel with
  | zero => exact absurd hok (by simp [splitLoop])
  | succ fuel =>
    rw [splitLoop, if_pos hlt] at hok
    obtain ⟨subend, hfs, hok⟩ := exc_bind_eq_ok hok
    obtain ⟨rest, hrec, hok⟩ := exc_bind_eq_ok hok
    rw [exc_pure] at hok
    injection hok with hok
    subst hok
    simp

/-- Non-leading iterations of the split loop degrade a rest-to-match-lyrics
sub-note to a plain rest. -/
lemma splitLoop_degrade (note' : Note) (lower : ℕ) (unit : ℤ) (n : ℕ)
    (ends ends_unit : List (List ℕ)) (p : ℕ) (endI : ℤ) (startBeat dur : ℚ)
    (hname : note'._name = Note.REST_TO_MATCH_LYRICS) :
    ∀ (fuel : ℕ) (beat : ℚ) (l : List Note),
      splitLoop note' lower unit n ends ends_unit p endI startBeat dur fuel beat false =
        Except.ok l →
      ∀ x ∈ l, x._name = Note.REST := by
  intro fuel
  induction fuel with
  | zero => intro beat l hok; exact absurd hok (by simp [splitLoop])
  | succ fuel ih =>
    intro beat l hok
    rw [splitLoop] at hok
    split at hok
    · obtain ⟨subend, hfs, hok⟩ := exc_bind_eq_ok hok
      obtain ⟨rest, hrec, hok⟩ := exc_bind_eq_ok hok
      rw [exc_pure] at hok
      injection hok with hok
      subst hok
      intro x hx
      rcases List.mem_cons.mp hx with rfl | hx
      · exact mkSubnote_name_rest _ _ _ _ hname
      · exact ih _ rest hrec x hx
    · rw [exc_pure] at hok
      injection hok with hok
      subst hok
      intro x hx
      simp at hx

lemma retieAux_length (restN : Bool) (total : ℕ) :
    ∀ (l : List Note) (i0 : ℕ), (retieAux restN total i0 l).length = l.length := by
  intro l
  induction l with
  | nil => intro i0; rfl
  | cons a l ih => intro i0; simp only [retieAux, List.length_cons, ih]

lemma retieAux_rest_tie (total : ℕ) :
    ∀ (l : List Note) (i0 : ℕ), ∀ x ∈ retieAux true total i0 l, x.tie = (false, false) := by
  intro l
  induction l with
  | nil => intro i0 x hx; simp [retieAux] at hx
  | cons a l ih =>
    intro i0 x hx
    simp only [retieAux] at hx
    rcases List.mem_cons.mp hx with rfl | hx
    · rfl
    · exact ih (i0 + 1) x hx

lemma retieAux_nonrest_tie (total : ℕ) :
    ∀ (l : List Note) (i0 i : ℕ) (h : i < (retieAux false total i0 l).length) (h' : i < l.length),
      (0 < i0 + i → ((retieAux false total i0 l).get ⟨i, h⟩).tie.1 = true) ∧
      (i0 + i < total - 1 → ((retieAux false total i0 l).get ⟨i, h⟩).tie.2 = true) := by
  intro l
  induction l with
  | nil => intro i0 i h h'; simp at h'
  | cons a l ih =>
    intro i0 i h h'
    cases i with
    | zero =>
      constructor
      · intro hpos
        simp only [retieAux, List.get]
        simp only [Nat.add_zero] at hpos
        simp [if_pos hpos]
      · intro hlt
        simp only [retieAux, List.get]
        simp only [Nat.add_zero] at hlt
        simp [if_pos hlt]
    | succ i =>
      have h2 : i < (retieAux false total (i0 + 1) l).length := by
        simp only [retieAux, List.length_cons] at h
        omega
      have h2' : i < l.length := by simp only [List.length_cons] at h'; omega
      have := ih (i0 + 1) i h2 h2'
      constructor
      · intro hpos
        show ((retieAux false total (i0 + 1) l).get ⟨i, h2⟩).tie.1 = true
        exact this.1 (by omega)
      · intro hlt
        show ((retieAux false total (i0 + 1) l).get ⟨i, h2⟩).tie.2 = true
        exact this.2 (by omega)

lemma retieAux_get_name (restN : Bool) (total : ℕ) :
    ∀ (l : List Note) (i0 i : ℕ) (h : i < (retieAux restN total i0 l).length) (h' : i < l.length),
      ((retieAux restN total i0 l).get ⟨i, h⟩)._name = (l.get ⟨i, h'⟩)._name := by
  intro l
  induction l with
  | nil => intro i0 i h h'; simp at h'
  | cons a l ih =>
    intro i0 i h h'
    cases i with
    | zero => cases restN <;> rfl
    | succ i =>
      have h2 : i < (retieAux restN total (i0 + 1) l).length := by
        simp only [retieAux, List.length_cons] at h
        omega
      have h2' : i < l.length := by simp only [List.length_cons] at h'; omega
      show ((retieAux restN total (i0 + 1) l).get ⟨i, h2⟩)._name = _
      rw [ih (i0 + 1) i h2 h2']
      rfl

lemma retieAux_map_duration (restN : Bool) (total : ℕ) :
    ∀ (l : List Note) (i0 : ℕ),
      (retieAux restN total i0 l).map Note.duration = l.map Note.duration := by
  intro l
  induction l with
  | nil => intro i0; rfl
  | cons a l ih =>
    intro i0
    simp only [retieAux, List.map_cons, ih]
    congr 1
    split_ifs <;> rfl

lemma sumDur_retie (orig : Note) (l : List Note) : sumDur (retie orig l) = sumDur l := by
  unfold sumDur retie
  cases horig : orig.is_rest <;> rw [retieAux_map_duration]

lemma retie_length (orig : Note) (l : List Note) : (retie orig l).length = l.length := by
  unfold retie
  cases orig.is_rest <;> rw [retieAux_length]

/-- C1: for a note with unresolved notation under a time signature with
`hyphen` set and `upper` known, a (normally returning) `Note.split_note`
yields a non-empty run of sub-notes whose durations sum exactly to the
note's duration; for a non-rest note every sub-note except the first has
`tie[0] = true` and every sub-note except the last has `tie[1] = true`; for
a rest every sub-note has `tie = (false, false)`; for a rest-to-match-lyrics
note every sub-note after the first is degraded to a plain rest. -/
theorem split_note_spec (time : Time) (hy u : ℕ) (start_beat : ℚ) (note : Note)
    (subs : List Note)
    (hhy : time.hyphen = some hy) (hu : time.upper = some u)
    (hlines : note.lines = none) (hdots : note.dots = none)
    (hsb : 0 ≤ start_beat) (hdur : 0 < note.duration)
    (hok : Note.split_note time start_beat note = Except.ok subs) :
    subs ≠ [] ∧
    sumDur subs = note.duration ∧
    (note.is_rest = false →
      ∀ (i : ℕ) (h : i < subs.length),
        (0 < i → (subs.get ⟨i, h⟩).tie.1 = true) ∧
        (i < subs.length - 1 → (subs.get ⟨i, h⟩).tie.2 = true)) ∧
    (note.is_rest = true → ∀ x ∈ subs, x.tie = (false, false)) ∧
    (note._name = Note.REST_TO_MATCH_LYRICS →
      ∀ (i : ℕ) (h : i < subs.length), 0 < i → (subs.get ⟨i, h⟩)._name = Note.REST) := by
  simp only [Note.split_note] at hok
  split at hok
  · cases hok
  · rename_i hguard
    rw [hu] at hok
    simp only at hok
    split at hok
    · cases hok
    · rename_i hbl
      split at hok
      · cases hok
      · rename_i params unit nI m nUnitI m_unit hparams
        split at hok
        · cases hok
        · rename_i ends hends
          split at hok
          · cases hok
          · rename_i ends_unit hendsu
            split at hok
            · cases hok
            · rename_i subs0 hloop
              injection hok with hok
              subst hok
              set note' : Note := { note with lines := none, dots := none } with hnote'
              set p : ℕ := bit_length (time.hyphen.getD 0) - 3 with hp
              have hrest_eq : note'.is_rest = note.is_rest := rfl
              have hname_eq : note'._name = note._name := rfl
              have hS : start_beat < start_beat + note.duration := by linarith
              have h2p : (0 : ℚ) < (2 ^ p : ℚ) := by positivity
              have hEnd : ((pyInt ((start_beat + note.duration) * (2 ^ p : ℚ))) : ℚ) ≤
                  (start_beat + note.duration) * (2 ^ p : ℚ) := by
                refine pyInt_le _ ?_
                positivity
              have hne : subs0 ≠ [] :=
                splitLoop_ne_nil _ _ _ _ _ _ _ _ _ _ _ _ _ _ hS hloop
              have hsum : sumDur subs0 = note.duration := by
                have := splitLoop_sum note' time.lower unit nI.toNat ends ends_unit p
                  (pyInt ((start_beat + note.duration) * (2 ^ p : ℚ))) start_beat note.duration
                  hEnd _ start_beat true subs0 (le_of_lt hS) hloop
                linarith
              refine ⟨?_, ?_, ?_, ?_, ?_⟩
              · intro hnil
                apply hne
                have := retie_length note' subs0
                rw [hnil] at this
                simp at this
                exact List.length_eq_zero.mp this.symm
              · rw [sumDur_retie, hsum]
              · intro hrest
                intro i h
                unfold retie at h ⊢
                revert h
                rw [show note'.is_rest = false from hrest]
                intro h
                have h' : i < subs0.length := by
                  rw [retieAux_length] at h
                  exact h
                have := retieAux_nonrest_tie subs0.length subs0 0 i h h'
                simp only [Nat.zero_add] at this
                refine ⟨this.1, ?_⟩
                intro hlt
                refine this.2 ?_
                have hl : (retieAux false subs0.length 0 subs0).length = subs0.length :=
                  retieAux_length _ _ _ _
                omega
              · intro hrest x hx
                unfold retie at hx
                rw [hrest_eq, hrest] at hx
                exact retieAux_rest_tie subs0.length subs0 0 x hx
              · intro hnm i h hpos
                unfold retie at h ⊢
                have h' : i < subs0.length := by
                  rw [retieAux_length] at h
                  exact h
                rw [retieAux_get_name _ _ subs0 0 i h h']
                -- decompose the loop: the first sub-note is separate, the rest are degraded
                rcases Nat.exists_eq_succ_of_ne_zero (Nat.pos_iff_ne_zero.mp hpos) with ⟨j, rfl⟩
                revert hloop
                generalize ((pyInt ((start_beat + note.duration) * (2 ^ p : ℚ))) -
                  pyInt (start_beat * (2 ^ p : ℚ))).toNat + 2 = fuel
                intro hloop
                cases fuel with
                | zero => exact absurd hloop (by simp [splitLoop])
                | succ fuel =>
                  rw [splitLoop, if_pos hS] at hloop
                  obtain ⟨subend, hfs, hloop⟩ := exc_bind_eq_ok hloop
                  obtain ⟨rest, hrec, hloop⟩ := exc_bind_eq_ok hloop
                  rw [exc_pure] at hloop
                  injection hloop with hloop
                  have hdeg := splitLoop_degrade note' time.lower unit nI.toNat ends ends_unit p
                    _ start_beat note.duration (by rw [hname_eq, hnm]) fuel _ rest hrec
                  subst hloop
                  have hj : j < rest.length := Nat.lt_of_succ_lt_succ (by simpa using h')
                  exact hdeg (rest.get ⟨j, hj⟩) (List.get_mem rest j hj)

/-- A concrete unresolved non-rest note used as witness input. -/
def wNote : Note :=
  { acc := none, _name := 1, octave := 0, duration := 2, lines := none, dots := none,
    tie := (false, false) }

/-- Witness for C1: a half-note in 2/4 hyphen=4 splits into a single
sub-note carrying the full duration. -/
theorem split_note_spec_witness :
    Note.split_note ⟨some 2, 4, some 4⟩ 0 wNote = Except.ok [wNote] ∧
    [wNote] ≠ ([] : List Note) ∧ sumDur [wNote] = wNote.duration := by
  have hok : Note.split_note ⟨some 2, 4, some 4⟩ 0 wNote = Except.ok [wNote] := by rfl
  have hmain := split_note_spec ⟨some 2, 4, some 4⟩ 4 2 0 wNote [wNote] rfl rfl rfl rfl
    (le_refl 0) (by norm_num [wNote]) hok
  exact ⟨hok, hmain.1, hmain.2.1⟩

/-! `class Node` of `nmn.py`: a rendered node is a note (with resolved
`lines`/`dots` and optional lyric text), a dash, or a dot.  `Node.__init__`
resolves `lines`/`dots` from the duration when the note carries none
(the §4.5 inverse decoding). -/

inductive PNode where
  | note (value : Note) (lines : Option ℤ) (dots : Option ℕ) (text : Option Char)
  | dash
  | dot
deriving DecidableEq, Repr

/-- Binary digits of `n`, least-significant first (fuel-indexed). -/
def binDigitsAux : ℕ → ℕ → List Bool
  | 0, _ => []
  | fuel + 1, n => if n = 0 then [] else decide (n % 2 = 1) :: binDigitsAux fuel (n / 2)

/-- Python `format(n, "b")` as a list of bits, most-significant first. -/
def binDigits (n : ℕ) : List Bool := (binDigitsAux n n).reverse

/-- Lengths of the maximal runs of 1-bits, in order (the lengths of Python
`filter(None, format(n, "b").split("0"))`). -/
def oneRunsAux : List Bool → ℕ → List ℕ
  | [], cur => if cur = 0 then [] else [cur]
  | true :: rest, cur => oneRunsAux rest (cur + 1)
  | false :: rest, cur => if cur = 0 then oneRunsAux rest 0 else cur :: oneRunsAux rest 0

/-- `one_groups` of `Node.__init__` (as run lengths). -/
def one_groups (n : ℕ) : List ℕ := oneRunsAux (binDigits n) 0

/-- `Node.__init__` on a `Note`: keep resolved notation, otherwise decode
`lines`/`dots` from the exact duration, rejecting non-dyadic, multi-run or
too-long durations. -/
def Node.initNote (note : Note) : Except String PNode :=
  match note.lines, note.dots with
  | some lines, some dots => Except.ok (PNode.note note (some lines) (some dots) none)
  | _, _ =>
    let duration := note.duration
    if duration ≤ 0 then Except.error "ValueError: duration <= 0 for note"
    else
      let numerator : ℕ := duration.num.toNat
      let denominator : ℕ := duration.den
      let n : ℕ := bit_length denominator - 1
      if 2 ^ n ≠ denominator then
        Except.error "ValueError: duration.denominator is not a power of 2"
      else if (one_groups numerator).length ≠ 1 then
        Except.error "ValueError: duration cannot be represented as a single note"
      else
        let m : ℕ := bit_length numerator - 1
        if pyMod duration 1 = 0 then
          Except.ok (PNode.note note (some (pyInt duration - 1)) (some 0) none)
        else if n < m then
          Except.error "ValueError: duration is not integral, but too long for a note"
        else
          Except.ok (PNode.note note (some ((m : ℤ) - n)) (some ((one_groups numerator).headI - 1)) none)

/-- The duration encoding of §4.2 for a non-triplet token:
`(dashes+1) / 2^underlines * (2 - 2^-dots)`. -/
def encodeDuration (dashes underlines dots : ℕ) : ℚ :=
  ((dashes : ℚ) + 1) / 2 ^ underlines * (2 - 1 / 2 ^ dots)

/-- The §4.5 inverse: decode a bare duration into `(lines, dots)` through
`Node.__init__` on a notation-less note. -/
def decodeDuration (d : ℚ) : Except String (ℤ × ℕ) :=
  match Node.initNote
      { acc := none, _name := 1, octave := 0, duration := d, lines := none, dots := none,
        tie := (false, false) } with
  | Except.ok (PNode.note _ (some lines) (some dots) _) => Except.ok (lines, dots)
  | Except.ok _ => Except.error "unexpected node"
  | Except.error e => Except.error e

lemma bitLenAux_zero : ∀ fuel, bitLenAux fuel 0 = 0
  | 0 => rfl
  | _ + 1 => rfl

lemma bitLenAux_two_pow : ∀ (k fuel : ℕ), 2 ^ k ≤ fuel → bitLenAux fuel (2 ^ k) = k + 1 := by
  intro k
  induction k with
  | zero =>
    intro fuel h
    cases fuel with
    | zero => omega
    | succ f => simp [bitLenAux, bitLenAux_zero]
  | succ k ih =>
    intro fuel h
    have hk : 0 < 2 ^ k := Nat.pos_pow_of_pos k (by omega)
    have h2 : 2 ^ (k + 1) = 2 ^ k * 2 := by ring
    cases fuel with
    | zero => omega
    | succ f =>
      have hne : 2 ^ (k + 1) ≠ 0 := by positivity
      simp only [bitLenAux, if_neg hne]
      have hdiv : 2 ^ (k + 1) / 2 = 2 ^ k := by omega
      rw [hdiv, ih f (by omega)]

lemma bit_length_two_pow (k : ℕ) : bit_length (2 ^ k) = k + 1 :=
  bitLenAux_two_pow k (2 ^ k) le_rfl

lemma binDigitsAux_two_pow_sub_one :
    ∀ (b fuel : ℕ), 2 ^ b - 1 ≤ fuel → binDigitsAux fuel (2 ^ b - 1) = List.replicate b true := by
  intro b
  induction b with
  | zero =>
    intro fuel h
    cases fuel with
    | zero => rfl
    | succ f => simp [binDigitsAux]
  | succ b ih =>
    intro fuel h
    have hb : 0 < 2 ^ b := Nat.pos_pow_of_pos b (by omega)
    have h2 : 2 ^ (b + 1) = 2 ^ b * 2 := by ring
    cases fuel with
    | zero => omega
    | succ f =>
      have hne : 2 ^ (b + 1) - 1 ≠ 0 := by omega
      simp only [binDigitsAux, if_neg hne]
      have hmod : (2 ^ (b + 1) - 1) % 2 = 1 := by omega
      have hdiv : (2 ^ (b + 1) - 1) / 2 = 2 ^ b - 1 := by omega
      rw [hmod, hdiv, ih f (by omega)]
      simp [List.replicate]

lemma bitLenAux_two_pow_sub_one :
    ∀ (b fuel : ℕ), 0 < b → 2 ^ b - 1 ≤ fuel → bitLenAux fuel (2 ^ b - 1) = b := by
  intro b
  induction b with
  | zero => omega
  | succ b ih =>
    intro fuel _ h
    have hb : 0 < 2 ^ b := Nat.pos_pow_of_pos b (by omega)
    have h2 : 2 ^ (b + 1) = 2 ^ b * 2 := by ring
    cases fuel with
    | zero => omega
    | succ f =>
      have hne : 2 ^ (b + 1) - 1 ≠ 0 := by omega
      simp only [bitLenAux, if_neg hne]
      have hdiv : (2 ^ (b + 1) - 1) / 2 = 2 ^ b - 1 := by omega
      rw [hdiv]
      rcases Nat.eq_zero_or_pos b with rfl | hbpos
      · simp [bitLenAux_zero]
      · rw [ih f hbpos (by omega)]

lemma bit_length_two_pow_sub_one (b : ℕ) (hb : 0 < b) : bit_length (2 ^ b - 1) = b :=
  bitLenAux_two_pow_sub_one b _ hb le_rfl

lemma binDigits_two_pow_sub_one (b : ℕ) : binDigits (2 ^ b - 1) = List.replicate b true := by
  unfold binDigits
  rw [binDigitsAux_two_pow_sub_one b _ le_rfl, List.reverse_replicate]

lemma oneRunsAux_replicate :
    ∀ (k c : ℕ), oneRunsAux (List.replicate k true) c = if c + k = 0 then [] else [c + k] := by
  intro k
  induction k with
  | zero => intro c; simp [oneRunsAux]
  | succ k ih =>
    intro c
    have h : c + 1 + k = c + (k + 1) := by omega
    simp only [List.replicate, oneRunsAux, ih (c + 1), h]

lemma one_groups_two_pow_sub_one (b : ℕ) (hb : 0 < b) : one_groups (2 ^ b - 1) = [b] := by
  unfold one_groups
  rw [binDigits_two_pow_sub_one, oneRunsAux_replicate]
  simp [Nat.pos_iff_ne_zero.mp hb]

lemma pyMod_one_eq_zero_iff (q : ℚ) : pyMod q 1 = 0 ↔ q.den = 1 := by
  have hfr : pyMod q 1 = q - (⌊q⌋ : ℚ) := by
    unfold pyMod
    rw [div_one, one_mul]
  rw [hfr]
  constructor
  · intro h
    have hq : q = ((⌊q⌋ : ℤ) : ℚ) := sub_eq_zero.mp h
    rw [hq]
    exact Rat.den_intCast _
  · intro h
    have hq := Rat.coe_int_num_of_den_eq_one h
    rw [← hq, Int.floor_intCast]
    ring

lemma encode_zero_eq (u dots : ℕ) :
    encodeDuration 0 u dots = ((2 ^ (dots + 1) - 1 : ℕ) : ℚ) / ((2 ^ (u + dots) : ℕ) : ℚ) := by
  unfold encodeDuration
  have h1 : ((2 ^ (dots + 1) - 1 : ℕ) : ℚ) = 2 ^ (dots + 1) - 1 := by
    push_cast [Nat.one_le_two_pow]
    ring
  have h2 : ((2 ^ (u + dots) : ℕ) : ℚ) = 2 ^ (u + dots) := by push_cast; ring
  rw [h1, h2]
  have hu : (2 : ℚ) ^ u ≠ 0 := by positivity
  have hd : (2 : ℚ) ^ dots ≠ 0 := by positivity
  have hud : (2 : ℚ) ^ (u + dots) ≠ 0 := by positivity
  field_simp
  ring

lemma coprime_pow_sub_one_pow (b k : ℕ) (hb : 0 < b) :
    Nat.Coprime (2 ^ b - 1) (2 ^ k) := by
  rcases Nat.eq_zero_or_pos k with rfl | hk
  · simp [Nat.coprime_one_right]
  · rw [Nat.coprime_pow_right_iff hk]
    have : ¬ 2 ∣ 2 ^ b - 1 := by
      intro hdvd
      have h2 : 2 ^ b % 2 = 0 := by
        have : (2 : ℕ) ∣ 2 ^ b := dvd_pow_self 2 (Nat.pos_iff_ne_zero.mp hb)
        omega
      have hb1 : 1 ≤ 2 ^ b := Nat.one_le_two_pow
      omega
    exact (Nat.coprime_comm.mp ((Nat.prime_two.coprime_iff_not_dvd).mpr this))

lemma encode_zero_num (u dots : ℕ) :
    (encodeDuration 0 u dots).num = ((2 ^ (dots + 1) - 1 : ℕ) : ℤ) := by
  rw [encode_zero_eq]
  have hb : (0 : ℤ) < ((2 ^ (u + dots) : ℕ) : ℤ) := by positivity
  have hco : Nat.Coprime ((2 ^ (dots + 1) - 1 : ℕ) : ℤ).natAbs ((2 ^ (u + dots) : ℕ) : ℤ).natAbs := by
    rw [Int.natAbs_ofNat, Int.natAbs_ofNat]
    exact coprime_pow_sub_one_pow (dots + 1) (u + dots) (by omega)
  have := Rat.num_div_eq_of_coprime hb hco
  simpa using this

lemma encode_zero_den (u dots : ℕ) :
    (encodeDuration 0 u dots).den = 2 ^ (u + dots) := by
  rw [encode_zero_eq]
  have hb : (0 : ℤ) < ((2 ^ (u + dots) : ℕ) : ℤ) := by positivity
  have hco : Nat.Coprime ((2 ^ (dots + 1) - 1 : ℕ) : ℤ).natAbs ((2 ^ (u + dots) : ℕ) : ℤ).natAbs := by
    rw [Int.natAbs_ofNat, Int.natAbs_ofNat]
    exact coprime_pow_sub_one_pow (dots + 1) (u + dots) (by omega)
  have h2 := Rat.den_div_eq_of_coprime hb hco
  have h3 : ((2 ^ (dots + 1) - 1 : ℕ) : ℚ) = (((2 ^ (dots + 1) - 1 : ℕ) : ℤ) : ℚ) := by
    push_cast
    ring
  have h4 : ((2 ^ (u + dots) : ℕ) : ℚ) = (((2 ^ (u + dots) : ℕ) : ℤ) : ℚ) := by
    push_cast
    ring
  rw [h3, h4]
  exact_mod_cast h2

lemma encode_zero_pos (u dots : ℕ) : 0 < encodeDuration 0 u dots := by
  rw [encode_zero_eq]
  have h1 : (0 : ℚ) < ((2 ^ (dots + 1) - 1 : ℕ) : ℚ) := by
    have : 1 ≤ 2 ^ (dots + 1) := Nat.one_le_two_pow
    have h2 : (1 : ℕ) ≤ 2 ^ (dots + 1) - 1 + 1 := by omega
    have h3 : (0 : ℕ) < 2 ^ (dots + 1) - 1 := by
      have : 2 ≤ 2 ^ (dots + 1) := by
        calc 2 = 2 ^ 1 := by ring
          _ ≤ 2 ^ (dots + 1) := Nat.pow_le_pow_right (by omega) (by omega)
      omega
    exact_mod_cast h3
  have h2 : (0 : ℚ) < ((2 ^ (u + dots) : ℕ) : ℚ) := by positivity
  positivity

/-- `Node.__init__`'s decoding branch, written as an `if` cascade (the note
has unresolved notation). -/
lemma initNote_unresolved (note : Note) (h1 : note.lines = none ∨ note.dots = none) :
    Node.initNote note =
      (if note.duration ≤ 0 then Except.error "ValueError: duration <= 0 for note"
       else if 2 ^ (bit_length note.duration.den - 1) ≠ note.duration.den then
         Except.error "ValueError: duration.denominator is not a power of 2"
       else if (one_groups note.duration.num.toNat).length ≠ 1 then
         Except.error "ValueError: duration cannot be represented as a single note"
       else if pyMod note.duration 1 = 0 then
         Except.ok (PNode.note note (some (pyInt note.duration - 1)) (some 0) none)
       else if bit_length note.duration.den - 1 < bit_length note.duration.num.toNat - 1 then
         Except.error "ValueError: duration is not integral, but too long for a note"
       else
         Except.ok (PNode.note note
           (some (((bit_length note.duration.num.toNat - 1 : ℕ) : ℤ) -
             ((bit_length note.duration.den - 1 : ℕ) : ℤ)))
           (some ((one_groups note.duration.num.toNat).headI - 1)) none)) := by
  unfold Node.initNote
  rcases hl : note.lines with _ | l <;> rcases hd : note.dots with _ | d <;>
    first
      | rfl
      | exact absurd h1 (by simp [hl, hd])

/-- Decoding the encoding of `(0, u, dots)`. -/
lemma decode_encode_zero (u dots : ℕ) :
    decodeDuration (encodeDuration 0 u dots) = Except.ok (-(u : ℤ), dots) := by
  rcases Nat.eq_zero_or_pos (u + dots) with hud | hud
  · have hu : u = 0 := by omega
    have hd : dots = 0 := by omega
    subst hu hd
    decide
  · have hpos := encode_zero_pos u dots
    have hnum := encode_zero_num u dots
    have hden := encode_zero_den u dots
    set q := encodeDuration 0 u dots with hq
    have hnum' : q.num.toNat = 2 ^ (dots + 1) - 1 := by rw [hnum]; exact Int.toNat_natCast _
    have hinit := initNote_unresolved
      { acc := none, _name := 1, octave := 0, duration := q, lines := none, dots := none,
        tie := (false, false) } (Or.inl rfl)
    simp only at hinit
    rw [hnum', hden] at hinit
    rw [if_neg (not_le.mpr hpos)] at hinit
    rw [bit_length_two_pow, Nat.add_sub_cancel] at hinit
    rw [if_neg (by simp)] at hinit
    rw [one_groups_two_pow_sub_one (dots + 1) (by omega)] at hinit
    rw [if_neg (by simp)] at hinit
    have hpm : ¬ pyMod q 1 = 0 := by
      intro h
      have hd1 := (pyMod_one_eq_zero_iff q).mp h
      rw [hden] at hd1
      have := Nat.one_lt_two_pow_iff.mpr (show u + dots ≠ 0 by omega)
      omega
    rw [if_neg hpm] at hinit
    rw [bit_length_two_pow_sub_one (dots + 1) (by omega), Nat.add_sub_cancel] at hinit
    rw [if_neg (by omega)] at hinit
    unfold decodeDuration
    rw [hinit]
    have h1 : ((dots : ℤ)) - ((u + dots : ℕ) : ℤ) = -(u : ℤ) := by push_cast; ring
    have h2 : ([dots + 1].headI : ℕ) - 1 = dots := by simp
    simp only [h1, h2]

/-- Decoding the encoding of `(dashes, 0, 0)` with `dashes > 0`, conditioned
on decode success (large dash counts whose value is not a single binary run
are rejected by `Node.__init__`). -/
lemma decode_encode_dash (dashes : ℕ) (hd : 0 < dashes) (pr : ℤ × ℕ)
    (h : decodeDuration (encodeDuration dashes 0 0) = Except.ok pr) : pr = ((dashes : ℤ), 0) := by
  have hqe : encodeDuration dashes 0 0 = ((dashes + 1 : ℕ) : ℚ) := by
    unfold encodeDuration
    push_cast
    ring
  set q := encodeDuration dashes 0 0 with hq
  have hden : q.den = 1 := by rw [hqe]; exact Rat.den_natCast _
  have hpos : ¬ q ≤ 0 := by
    rw [hqe, not_le]
    push_cast
    positivity
  have hinit := initNote_unresolved
    { acc := none, _name := 1, octave := 0, duration := q, lines := none, dots := none,
      tie := (false, false) } (Or.inl rfl)
  simp only at hinit
  rw [if_neg hpos, hden] at hinit
  rw [show bit_length 1 = 1 from rfl] at hinit
  rw [if_neg (by norm_num)] at hinit
  by_cases hog : (one_groups q.num.toNat).length ≠ 1
  · rw [if_pos hog] at hinit
    unfold decodeDuration at h
    rw [hinit] at h
    cases h
  · rw [if_neg hog] at hinit
    have hpm : pyMod q 1 = 0 := (pyMod_one_eq_zero_iff q).mpr hden
    rw [if_pos hpm] at hinit
    have hpyInt : pyInt q = ((dashes : ℤ) + 1) := by
      unfold pyInt
      rw [if_pos (le_of_not_le hpos), hqe, Int.floor_natCast]
      push_cast
      ring
    unfold decodeDuration at h
    rw [hinit] at h
    simp only [hpyInt] at h
    injection h with h
    rw [← h]
    norm_num

/-- C4 (amended): encoding `(dashes, underlines, dots)` with dashes and
underlines not both positive and triplet absent round-trips through the
§4.5 decode whenever additionally `dashes = 0` or `dots = 0`: for `dashes =
0` the decode always succeeds and returns `(-underlines, dots)`; for
`dashes > 0` any successful decode returns `(dashes, 0)` (the decode
normalizes dash-plus-dot spellings of the same value, so the unrestricted
round-trip of the original claim fails, see the counterexample). -/
theorem encode_decode_roundtrip (dashes u dots : ℕ)
    (hboth : ¬(0 < dashes ∧ 0 < u)) (hzero : dashes = 0 ∨ dots = 0) :
    (∀ pr, decodeDuration (encodeDuration dashes u dots) = Except.ok pr →
      pr = ((if 0 < dashes then (dashes : ℤ) else -(u : ℤ)), dots)) ∧
    (dashes = 0 →
      decodeDuration (encodeDuration dashes u dots) = Except.ok (-(u : ℤ), dots)) := by
  rcases Nat.eq_zero_or_pos dashes with hda | hda
  · subst hda
    refine ⟨?_, fun _ => decode_encode_zero u dots⟩
    intro pr hpr
    rw [decode_encode_zero u dots] at hpr
    injection hpr with hpr
    rw [← hpr]
    norm_num
  · have hu : u = 0 := by
      rcases Nat.eq_zero_or_pos u with h | h
      · exact h
      · exact absurd ⟨hda, h⟩ hboth
    have hdots : dots = 0 := by
      rcases hzero with h | h
      · omega
      · exact h
    subst hu
    subst hdots
    refine ⟨?_, fun h => absurd h (by omega)⟩
    intro pr hpr
    rw [if_pos hda]
    exact decode_encode_dash dashes hda pr hpr

/-- Counterexample for C4 as stated: `(dashes, underlines, dots) = (1, 0, 1)`
encodes to duration 3, which decodes to `(2 dashes, 0 dots)`, not back to
`(1, 1)`. -/
theorem encode_decode_not_roundtrip :
    decodeDuration (encodeDuration 1 0 1) = Except.ok (2, 0) ∧
    decodeDuration (encodeDuration 1 0 1) ≠ Except.ok (1, 1) := by
  constructor <;> decide

/-- Witness for C4 (amended) at `(0, 1, 1)`. -/
theorem encode_decode_roundtrip_witness :
    decodeDuration (encodeDuration 0 1 1) = Except.ok (-1, 1) := by
  have h := (encode_decode_roundtrip 0 1 1 (by decide) (Or.inl rfl)).2 rfl
  simpa using h

/-- One bar of `Song.melody`: `(time, start_beat, [notes])`. -/
abbrev Bar := Time × ℚ × List Note

/-- The per-note body of `make_ties_consistent`'s forward pass: propagate
`prev_tie` into `tie[0]`, clear a rest's ties, and thread `tie[1]` on. -/
def tiePass (prev_tie : Bool) : List Note → List Note × Bool
  | [] => ([], prev_tie)
  | note :: rest =>
    let n1 := if prev_tie then { note with tie := (true, note.tie.2) } else note
    let n2 := if n1.is_rest then { n1 with tie := (false, false) } else n1
    let res := tiePass n2.tie.2 rest
    (n2 :: res.1, res.2)

/-- The bar loop of `make_ties_consistent` (raises on an empty bar). -/
def tieBars (prev_tie : Bool) : List Bar → Except String (List Bar × Bool)
  | [] => Except.ok ([], prev_tie)
  | (time, sb, notes) :: rest =>
    if notes = [] then Except.error "ValueError: empty bar in self.melody"
    else
      let res := tiePass prev_tie notes
      match tieBars res.2 rest with
      | Except.error e => Except.error e
      | Except.ok (rest', p') => Except.ok ((time, sb, res.1) :: rest', p')

/-- `self.melody[0][-1][0].tie[0] = False` (first note of the first bar). -/
def setFirstTie0 : List Bar → List Bar
  | [] => []
  | (t, sb, notes) :: rest =>
    (t, sb,
      match notes with
      | [] => []
      | n :: ns => { n with tie := (false, n.tie.2) } :: ns) :: rest

def setLastNoteTie1 : List Note → List Note
  | [] => []
  | [n] => [{ n with tie := (n.tie.1, false) }]
  | n :: rest => n :: setLastNoteTie1 rest

/-- `self.melody[-1][-1][-1].tie[1] = False` (last note of the last bar). -/
def setLastTie1 : List Bar → List Bar
  | [] => []
  | [(t, sb, notes)] => [(t, sb, setLastNoteTie1 notes)]
  | b :: rest => b :: setLastTie1 rest

/-- `Song.make_ties_consistent()` on the melody. -/
def Song.make_ties_consistent (melody : List Bar) : Except String (List Bar) :=
  if melody = [] then Except.ok melody
  else
    match tieBars false melody with
    | Except.error e => Except.error e
    | Except.ok (melody', _) => Except.ok (setLastTie1 (setFirstTie0 melody'))

/-- The resolved non-rest note `1` with one beat. -/
def cNote1 : Note :=
  { acc := none, _name := 1, octave := 0, duration := 1, lines := some 0, dots := some 0,
    tie := (false, false) }

/-- The note `~2` (written with a leading tie marker only). -/
def cNote2 : Note := { cNote1 with _name := 2, tie := (true, false) }

/-- C2: evaluation of `make_ties_consistent` at the failing input
`1 ~2` (one 4/4 bar, second note carries only a written `tie[0]`): the pass
returns normally but leaves `note0.tie[1] = false` next to
`note1.tie[0] = true`, contradicting the method's own contract
(`note0.tie[1] == note1.tie[0]` for consecutive notes) and the claim. -/
theorem make_ties_consistent_violation :
    Song.make_ties_consistent [(⟨some 4, 4, none⟩, 0, [cNote1, cNote2])] =
      Except.ok [(⟨some 4, 4, none⟩, 0, [cNote1, cNote2])] ∧
    cNote1.tie.2 = false ∧ cNote2.tie.1 = true := by
  refine ⟨by decide, rfl, rfl⟩

/-- The inner note loop of `try_split_notes`: split each unresolved note at
its running beat, keep resolved notes, and advance the beat. -/
def splitNotesLoop (time : Time) : ℚ → List Note → Except String (List Note)
  | _, [] => Except.ok []
  | beat, note :: rest =>
    match (if note.lines = none ∨ note.dots = none then Note.split_note time beat note
           else Except.ok [note]) with
    | Except.error e => Except.error e
    | Except.ok subs =>
      match splitNotesLoop time (beat + note.duration) rest with
      | Except.error e => Except.error e
      | Except.ok rest' => Except.ok (subs ++ rest')

/-- `Song.try_split_notes()`: bars without `hyphen` are untouched. -/
def Song.try_split_notes : List Bar → Except String (List Bar)
  | [] => Except.ok []
  | (time, sb, notes) :: rest =>
    match (if time.hyphen = none ∨ time.hyphen = some 0 then Except.ok notes
           else splitNotesLoop time sb notes) with
    | Except.error e => Except.error e
    | Except.ok notes' =>
      match Song.try_split_notes rest with
      | Except.error e => Except.error e
      | Except.ok rest' => Except.ok ((time, sb, notes') :: rest')

/-- A whole-bar unresolved note in 4/4 hyphen=8. -/
def cUnresolved : Note :=
  { acc := none, _name := 1, octave := 0, duration := 4, lines := none, dots := none,
    tie := (false, false) }

/-- Counterexample for C7 as stated: after `try_split_notes` the sub-note
still carries `lines = None` and `dots = None` (the splitter erases rather
than resolves the notation; resolution happens only at `Node` construction
inside the aligner). -/
theorem try_split_notes_leaves_none :
    Song.try_split_notes [(⟨some 4, 4, some 8⟩, 0, [cUnresolved])] =
      Except.ok [(⟨some 4, 4, some 8⟩, 0, [cUnresolved])] ∧
    cUnresolved.lines = none ∧ cUnresolved.dots = none := by
  refine ⟨by decide, rfl, rfl⟩

/-- C7 (amended): every note-`Node` the aligner constructs has resolved
notation: whenever `Node.__init__` returns normally on a note, the
resulting node's `lines` and `dots` are not `None` (either copied from a
resolved note or decoded from the duration). -/
theorem initNote_resolved (note val : Note) (lines : Option ℤ) (dots : Option ℕ)
    (text : Option Char)
    (h : Node.initNote note = Except.ok (PNode.note val lines dots text)) :
    lines ≠ none ∧ dots ≠ none := by
  rcases hl : note.lines with _ | l <;> rcases hd : note.dots with _ | d
  case some.some =>
    unfold Node.initNote at h
    rw [hl, hd] at h
    injection h with h2
    injection h2 with e1 e2 e3 e4
    exact ⟨by rw [← e2]; simp, by rw [← e3]; simp⟩
  all_goals
    rw [initNote_unresolved note (by simp [hl, hd])] at h
    repeat' split at h
  all_goals
    first
      | exact Except.noConfusion h
      | (rw [Except.ok.injEq, PNode.note.injEq] at h
         exact ⟨by rw [← h.2.1]; simp, by rw [← h.2.2.1]; simp⟩)

/-- Witness for C7 (amended): the whole-bar note decodes to 3 dashes. -/
theorem initNote_resolved_witness :
    Node.initNote cUnresolved = Except.ok (PNode.note cUnresolved (some 3) (some 0) none) ∧
    ((some (3 : ℤ) : Option ℤ) ≠ none ∧ (some (0 : ℕ) : Option ℕ) ≠ none) := by
  have hok : Node.initNote cUnresolved =
      Except.ok (PNode.note cUnresolved (some 3) (some 0) none) := by decide
  exact ⟨hok, initNote_resolved cUnresolved cUnresolved (some 3) (some 0) none hok⟩

/-! `parse_pitch` and the bar grammar of `append_time_signature`.  The
regular expressions of the source are embedded as recursive scanners over
character lists with identical backtracking behaviour (the token grammar is
deterministic: the duration/tie parts may match empty, and the alternation
tries a single pitch before a bracketed group, exactly as the regex). -/

/-- `<key>`: either the literal `solfa` mode or a movable key
`(tonic, accidental, signature 8-tuple)` as built by `parse_key`. -/
inductive KeyVal where
  | solfa
  | movable (tonic : ℤ) (tmp : ℤ) (table : List ℤ)
deriving DecidableEq, Repr

/-- A pitch token `[#$%]?[0-9a-zA-Z][',]*` split into its groups. -/
structure PitchTok where
  accChar : Option Char
  nameChar : Char
  octaveMarks : List Char
deriving DecidableEq, Repr

def solfaUpper (ch : Char) : Option ℤ :=
  if ch = 'q' then some 1 else if ch = 'w' then some 2 else if ch = 'e' then some 3
  else if ch = 'r' then some 4 else if ch = 't' then some 5 else if ch = 'y' then some 6
  else if ch = 'u' then some 7 else if ch = '8' then some 1 else if ch = '9' then some 2
  else none

def solfaLower (ch : Char) : Option ℤ :=
  if ch = 'z' then some 1 else if ch = 'x' then some 2 else if ch = 'c' then some 3
  else if ch = 'v' then some 4 else if ch = 'b' then some 5 else if ch = 'n' then some 6
  else if ch = 'm' then some 7 else none

/-- `key_dict = dict(zip('ABCDEFG', [6, 7, 1, 2, 3, 4, 5]))` applied to the
upper-cased letter. -/
def keyLetter (ch : Char) : Option ℤ :=
  if ch = 'A' ∨ ch = 'a' then some 6 else if ch = 'B' ∨ ch = 'b' then some 7
  else if ch = 'C' ∨ ch = 'c' then some 1 else if ch = 'D' ∨ ch = 'd' then some 2
  else if ch = 'E' ∨ ch = 'e' then some 3 else if ch = 'F' ∨ ch = 'f' then some 4
  else if ch = 'G' ∨ ch = 'g' then some 5 else none

/-- The apostrophe character (octave-up mark). -/
def apos : Char := Char.ofNat 39

/-- The branchy core of `parse_pitch` (before the trailing asserts). -/
def parsePitchCore (key : Option KeyVal) (p : PitchTok) : Except String (Option ℤ × ℤ × ℤ) :=
  let acc0 : Option ℤ :=
    match p.accChar with
    | none => none
    | some ch => if ch = '#' then some 1 else if ch = '$' then some (-1) else some 0
  let octave0 : ℤ := (p.octaveMarks.count apos : ℤ) - (p.octaveMarks.count ',' : ℤ)
  let ch := p.nameChar
  if ch = '0' then Except.ok (none, Note.REST, 0)
  else if ch = 'o' then Except.ok (none, Note.REST_AT_END, 0)
  else if ch = 'O' then Except.ok (none, Note.REST_TO_MATCH_LYRICS, 0)
  else
    match key with
    | some KeyVal.solfa =>
      if '1' ≤ ch ∧ ch ≤ '7' then Except.ok (acc0, (ch.toNat : ℤ) - 48, octave0)
      else
        match solfaUpper ch with
        | some d => Except.ok (acc0, d, octave0 + 1)
        | none =>
          match solfaLower ch with
          | some d => Except.ok (acc0, d, octave0 - 1)
          | none => Except.error "ValueError: not allowed in <key> solfa"
    | some (KeyVal.movable tonic _tmp table) =>
      match (if '1' ≤ ch ∧ ch ≤ '7' then Except.ok ((ch.toNat : ℤ) - 48)
             else match keyLetter ch with
                  | some d => Except.ok d
                  | none => Except.error "ValueError: not allowed in key") with
      | Except.error e => Except.error e
      | Except.ok namev =>
        match (match acc0 with
               | none => Except.ok (none : Option ℤ)
               | some a =>
                 match pyGet table namev with
                 | Except.error e => Except.error e
                 | Except.ok v => Except.ok (some (a - v))) with
        | Except.error e => Except.error e
        | Except.ok acc1 =>
          let octave1 : ℤ :=
            if tonic ≤ 4 then (if namev < tonic then octave0 - 1 else octave0)
            else (if tonic ≤ namev then octave0 + 1 else octave0)
          Except.ok (acc1, Int.emod (namev - tonic) 7 + 1, octave1)
    | none => Except.error "TypeError: key is None"

/-- `parse_pitch(key, s)` including its closing `assert`s. -/
def parse_pitch (key : Option KeyVal) (p : PitchTok) : Except String (Option ℤ × ℤ × ℤ) :=
  match parsePitchCore key p with
  | Except.error e => Except.error e
  | Except.ok (acc, name, octave) =>
    if ¬(acc = none ∨ acc = some (-1) ∨ acc = some 0 ∨ acc = some 1) then
      Except.error "AssertionError"
    else if ¬(name = 1 ∨ name = 2 ∨ name = 3 ∨ name = 4 ∨ name = 5 ∨ name = 6 ∨ name = 7 ∨
        name = Note.REST ∨ name = Note.REST_AT_END ∨ name = Note.REST_TO_MATCH_LYRICS) then
      Except.error "AssertionError"
    else if ¬(octave = -1 ∨ octave = 0 ∨ octave = 1) then Except.error "AssertionError"
    else if (name = Note.REST ∨ name = Note.REST_AT_END ∨ name = Note.REST_TO_MATCH_LYRICS) ∧
        ¬(acc = none ∧ octave = 0) then
      Except.error "AssertionError"
    else Except.ok (acc, name, octave)

/-- A matched bar token
`(~?)(pitch|\[pitch+\])((?:[_=]+|-*)\.*(?:/3)?)(~?)`. -/
structure NoteTok where
  tie0 : Bool
  bracket : Bool
  pitches : List PitchTok
  dashes : ℕ
  underlines : ℕ
  dots : ℕ
  triplet : Bool
  tie1 : Bool
deriving DecidableEq, Repr

def isAccChar (ch : Char) : Bool := ch == '#' || ch == '$' || ch == '%'

/-- The character class `[0-7a-zA-Z]` of `pattern_pitch`. -/
def isNameChar (ch : Char) : Bool :=
  (decide ('0' ≤ ch) && decide (ch ≤ '7')) || (decide ('a' ≤ ch) && decide (ch ≤ 'z')) ||
    (decide ('A' ≤ ch) && decide (ch ≤ 'Z'))

def isOctChar (ch : Char) : Bool := ch == apos || ch == ','

/-- Match `[#$%]?[0-7a-zA-Z][',]*` at the head of the input. -/
def matchPitch : List Char → Option (PitchTok × List Char)
  | [] => none
  | ch :: rest =>
    if isAccChar ch then
      match rest with
      | ch2 :: rest2 =>
        if isNameChar ch2 then
          let sp := rest2.span isOctChar
          some (⟨some ch, ch2, sp.1⟩, sp.2)
        else none
      | [] => none
    else if isNameChar ch then
      let sp := rest.span isOctChar
      some (⟨none, ch, sp.1⟩, sp.2)
    else none

/-- Greedy `pitch+` (the fuel is an upper bound on the input length). -/
def matchPitchPlus : ℕ → List Char → List PitchTok × List Char
  | 0, cs => ([], cs)
  | fuel + 1, cs =>
    match matchPitch cs with
    | none => ([], cs)
    | some (p, rest) =>
      let res := matchPitchPlus fuel rest
      (p :: res.1, res.2)

/-- Match the duration suffix `(?:[_=]+|-*)\.*(?:/3)?` followed by `(~?)`
and assemble the token. -/
def matchDuration (t0 : Bool) (br : Bool) (ps : List PitchTok) (cs : List Char) :
    NoteTok × List Char :=
  let spUl :=
    match cs with
    | ch :: _ =>
      if ch == '_' || ch == '=' then cs.span (fun c2 => c2 == '_' || c2 == '=')
      else cs.span (fun c2 => c2 == '-')
    | [] => ([], cs)
  let spDots := spUl.2.span (fun c2 => c2 == '.')
  let triRest : Bool × List Char :=
    match spDots.2 with
    | '/' :: '3' :: rest => (true, rest)
    | rest => (false, rest)
  let tieRest : Bool × List Char :=
    match triRest.2 with
    | '~' :: rest => (true, rest)
    | rest => (false, rest)
  (⟨t0, br, ps, spUl.1.count '-', (spUl.1.count '=') * 2 + spUl.1.count '_',
    spDots.1.length, triRest.1, tieRest.1⟩, tieRest.2)

/-- Match one whole token at the head of the input (the regex alternation
tries a bare pitch before a bracketed pitch group). -/
def matchToken (cs : List Char) : Option (NoteTok × List Char) :=
  let t0cs : Bool × List Char :=
    match cs with
    | '~' :: rest => (true, rest)
    | _ => (false, cs)
  match matchPitch t0cs.2 with
  | some (p, cs2) => some (matchDuration t0cs.1 false [p] cs2)
  | none =>
    match t0cs.2 with
    | '[' :: cs2 =>
      let res := matchPitchPlus cs2.length cs2
      if res.1 = [] then none
      else
        match res.2 with
        | ']' :: cs4 => some (matchDuration t0cs.1 true res.1 cs4)
        | _ => none
    | _ => none

/-- `re.findall` over the bar: collect non-overlapping token matches,
recording whether any character was skipped (the `join != bar` check). -/
def scanTokens : ℕ → List Char → List NoteTok × Bool
  | _, [] => ([], true)
  | 0, _ => ([], false)
  | fuel + 1, cs =>
    match matchToken cs with
    | some (tok, rest) =>
      let res := scanTokens fuel rest
      (tok :: res.1, res.2)
    | none =>
      match cs with
      | _ :: rest =>
        let res := scanTokens fuel rest
        (res.1, false)
      | [] => ([], true)

/-- The per-pitch loop of a token: drop the leading tie on non-first
pitches and the trailing tie on non-last pitches, and build one `Note` per
pitch. -/
def pitchesToNotes (key : Option KeyVal) (duration : ℚ) (dashesArg : Option ℕ)
    (underlines dots : ℕ) (tie0 tie1 : Bool) (total : ℕ) :
    ℕ → List PitchTok → Except String (List Note)
  | _, [] => Except.ok []
  | k, p :: rest =>
    match parse_pitch key p with
    | Except.error e => Except.error e
    | Except.ok (acc, name, octave) =>
      let t0 := if 0 < k then false else tie0
      let t1 := if k < total - 1 then false else tie1
      let note := Note.init acc name octave duration dashesArg underlines dots (t0, t1)
      match pitchesToNotes key duration dashesArg underlines dots tie0 tie1 total (k + 1) rest with
      | Except.error e => Except.error e
      | Except.ok notes => Except.ok (note :: notes)

/-- The per-token body of `append_time_signature`'s note loop: duration
arithmetic (hyphen and non-hyphen modes) and note construction; returns the
notes together with the token's contribution to `bar_duration` (one
`duration` per pitch). -/
def tokenToNotes (key : Option KeyVal) (time : Time) (tok : NoteTok) :
    Except String (List Note × ℚ) :=
  if 0 < tok.dashes ∧ 0 < tok.underlines then Except.error "ValueError: wrong format"
  else
    let triplet : ℚ := if tok.triplet then 2 / 3 else 1
    match (if ¬(time.hyphen = none ∨ time.hyphen = some 0) then
             (if tok.bracket then
                Except.ok (((tok.dashes : ℚ) + 1) / 2 ^ tok.underlines *
                  (2 - 1 / 2 ^ tok.dots) * triplet, some tok.dashes)
              else if 0 < tok.dots ∨ 0 < tok.underlines ∨ triplet ≠ 1 then
                Except.error "ValueError: dots, underlines and triplets are not allowed without brackets"
              else if time.hyphen.getD 0 / 4 = 0 then Except.error "ZeroDivisionError"
              else Except.ok (((tok.dashes : ℚ) + 1) / ((time.hyphen.getD 0 / 4 : ℕ) : ℚ), none))
           else
             Except.ok (((tok.dashes : ℚ) + 1) / 2 ^ tok.underlines *
               (2 - 1 / 2 ^ tok.dots) * triplet, some tok.dashes)) with
    | Except.error e => Except.error e
    | Except.ok (duration, dashesArg) =>
      match pitchesToNotes key duration dashesArg tok.underlines tok.dots tok.tie0 tok.tie1
          tok.pitches.length 0 tok.pitches with
      | Except.error e => Except.error e
      | Except.ok notes => Except.ok (notes, duration * tok.pitches.length)

def tokensToNotes (key : Option KeyVal) (time : Time) :
    List NoteTok → Except String (List Note × ℚ)
  | [] => Except.ok ([], 0)
  | tok :: rest =>
    match tokenToNotes key time tok with
    | Except.error e => Except.error e
    | Except.ok (notes1, d1) =>
      match tokensToNotes key time rest with
      | Except.error e => Except.error e
      | Except.ok (notes2, d2) => Except.ok (notes1 ++ notes2, d1 + d2)

/-- `self.melody[-1][-1].append(sub_note)`. -/
def appendToLastBar : List Bar → Note → Except String (List Bar)
  | [], _ => Except.error "IndexError: list index out of range"
  | [(t, b, ns)], note => Except.ok [(t, b, ns ++ [note])]
  | bar :: rest, note =>
    match appendToLastBar rest note with
    | Except.error e => Except.error e
    | Except.ok rest' => Except.ok (bar :: rest')

/-- `time_duration` of one bar segment. -/
def timeDurationOf (time : Time) (bar_duration : ℚ) : ℚ :=
  match time.upper with
  | none => bar_duration
  | some u => if time.lower = 4 then (u : ℚ) else (u : ℚ) / 2

/-- The inner `while remaining_duration > 0` placement loop of
`append_time_signature` for one note: open a bar at beat 0, clip the note
at the bar boundary (legal only with `hyphen`), and append the sub-note to
the last bar. -/
def placeNoteLoop (time : Time) (td : ℚ) (note : Note) :
    ℕ → ℚ → ℚ → Bool → List Bar → Except String (ℚ × List Bar)
  | 0, _, _, _, _ => Except.error "nontermination: note placement"
  | fuel + 1, remaining, beat, first, melody =>
    if 0 < remaining then
      let melody1 := if beat = 0 then melody ++ [(time, (0 : ℚ), ([] : List Note))] else melody
      let sub := min remaining (td - beat)
      if (time.hyphen = none ∨ time.hyphen = some 0) ∧ sub ≠ remaining then
        Except.error "ValueError: goes beyond one bar"
      else
        let sub_note : Note :=
          { note with duration := sub,
                      tie := ((if first then note.tie.1 else true), note.tie.2) }
        match appendToLastBar melody1 sub_note with
        | Except.error e => Except.error e
        | Except.ok melody2 =>
          let beat' := beat + sub
          if ¬(beat' ≤ td) then Except.error "AssertionError"
          else
            placeNoteLoop time td note fuel (remaining - sub) (if beat' = td then 0 else beat')
              false melody2
    else Except.ok (beat, melody)

/-- The `for note in note_list` placement loop. -/
def placeNotes (time : Time) (td : ℚ) :
    List Note → ℚ → List Bar → Except String (ℚ × List Bar)
  | [], beat, melody => Except.ok (beat, melody)
  | note :: rest, beat, melody =>
    if note.duration ≤ 0 then Except.error "AssertionError"
    else
      let fuel := (if 0 < td then (pyInt (note.duration / td)).toNat + 3 else 1)
      match placeNoteLoop time td note fuel note.duration beat true melody with
      | Except.error e => Except.error e
      | Except.ok (beat', melody') => placeNotes time td rest beat' melody'

/-- Process one `|`-separated bar segment (index `i` of `numBars`): parse
its notes, compute `time_duration` and the pickup offset, and place the
notes into the melody. -/
def processBar (key : Option KeyVal) (time : Time) (i numBars : ℕ) (bar : List Char)
    (melody : List Bar) : Except String (List Bar) :=
  if bar = [] then Except.ok melody
  else
    let scanned := scanTokens bar.length bar
    if scanned.2 = false then Except.error "ValueError: wrong format"
    else
      match tokensToNotes key time scanned.1 with
      | Except.error e => Except.error e
      | Except.ok (note_list, bar_duration) =>
        if note_list = [] then Except.error "AssertionError"
        else
          let td := timeDurationOf time bar_duration
          match (if i = 0 ∧ 1 < numBars then
                   (if td = 0 then Except.error "ZeroDivisionError"
                    else Except.ok (pyMod (td - pyMod bar_duration td) td))
                 else Except.ok (0 : ℚ)) with
          | Except.error e => Except.error e
          | Except.ok beat =>
            let melody1 := if 0 < beat then melody ++ [(time, beat, ([] : List Note))] else melody
            match placeNotes time td note_list beat melody1 with
            | Except.error e => Except.error e
            | Except.ok (_, melody2) => Except.ok melody2

def processBars (key : Option KeyVal) (time : Time) :
    ℕ → ℕ → List (List Char) → List Bar → Except String (List Bar)
  | _, _, [], melody => Except.ok melody
  | i, numBars, bar :: rest, melody =>
    match processBar key time i numBars bar melody with
    | Except.error e => Except.error e
    | Except.ok melody' => processBars key time (i + 1) numBars rest melody'

/-- Python `s.split(c)` for a single-character separator. -/
def splitOnChar (c : Char) : List Char → List (List Char)
  | [] => [[]]
  | x :: xs =>
    let r := splitOnChar c xs
    if x = c then [] :: r
    else
      match r with
      | [] => [[x]]
      | g :: gs => (x :: g) :: gs

/-- `Song.append_time_signature(time, s)` (the key is `self.key`). -/
def Song.append_time_signature (key : Option KeyVal) (time : Option Time) (s : String)
    (melody : List Bar) : Except String (List Bar) :=
  match time with
  | none => Except.error "ValueError: unknown <time>"
  | some t =>
    if s = "" then Except.ok melody
    else
      let bars := splitOnChar '|' s.data
      processBars key t 0 bars.length bars melody

lemma pyMod_eq_mul_fract (a b : ℚ) (hb : b ≠ 0) : pyMod a b = b * Int.fract (a / b) := by
  unfold pyMod Int.fract
  field_simp

lemma pyMod_nonneg (a b : ℚ) (hb : 0 < b) : 0 ≤ pyMod a b := by
  rw [pyMod_eq_mul_fract a b hb.ne.symm]
  exact mul_nonneg hb.le (Int.fract_nonneg _)

lemma pyMod_lt (a b : ℚ) (hb : 0 < b) : pyMod a b < b := by
  rw [pyMod_eq_mul_fract a b hb.ne.symm]
  calc b * Int.fract (a / b) < b * 1 := by
        exact mul_lt_mul_of_pos_left (Int.fract_lt_one _) hb
    _ = b := mul_one b

lemma appendToLastBar_append (xs : List Bar) (lb : Bar) (note : Note) :
    appendToLastBar (xs ++ [lb]) note =
      Except.ok (xs ++ [(lb.1, lb.2.1, lb.2.2 ++ [note])]) := by
  induction xs with
  | nil => rcases lb with ⟨t, b, ns⟩; rfl
  | cons x xs ih =>
    cases xs with
    | nil =>
      rcases lb with ⟨t, b, ns⟩
      rfl
    | cons y ys =>
      show (match appendToLastBar ((y :: ys) ++ [lb]) note with
            | Except.error e => Except.error e
            | Except.ok rest' => Except.ok (x :: rest')) = _
      rw [ih]
      rfl

/-- Invariant of the note-placement loop: the running beat stays within the
bar, the melody extends the initial melody by bars whose content never
exceeds `time_duration`, the first appended bar starts at the segment's
initial beat, and when the beat is strictly inside a bar the last appended
bar accounts exactly for it. -/
def BarsInv (melody₀ : List Bar) (td beat0 beat : ℚ) (mel : List Bar) : Prop :=
  0 ≤ beat ∧ beat ≤ td ∧
  ∃ new, mel = melody₀ ++ new ∧
    (∀ bar ∈ new, bar.2.1 + sumDur bar.2.2 ≤ td) ∧
    (∀ hb, new.head? = some hb → hb.2.1 = beat0) ∧
    (new = [] → beat = beat0) ∧
    (beat ≠ 0 → ∃ pre lb, new = pre ++ [lb] ∧ lb.2.1 + sumDur lb.2.2 = beat)

lemma head?_append_left {l l' : List α} (h : l ≠ []) : (l ++ l').head? = l.head? := by
  cases l with
  | nil => exact absurd rfl h
  | cons a t => rfl

lemma sumDur_append (xs ys : List Note) : sumDur (xs ++ ys) = sumDur xs + sumDur ys := by
  induction xs with
  | nil => rw [List.nil_append, sumDur_nil]; ring
  | cons x t ih => rw [List.cons_append, sumDur_cons, sumDur_cons, ih]; ring

lemma placeNoteLoop_inv (time : Time) (td : ℚ) (note : Note)
    (melody₀ : List Bar) (beat0 : ℚ) :
    ∀ fuel remaining beat first mel res,
      BarsInv melody₀ td beat0 beat mel →
      placeNoteLoop time td note fuel remaining beat first mel = Except.ok res →
      BarsInv melody₀ td beat0 res.1 res.2 := by
  intro fuel
  induction fuel with
  | zero =>
    intro remaining beat first mel res _ h
    exact Except.noConfusion h
  | succ fuel ih =>
    intro remaining beat first mel res hinv h
    obtain ⟨hb0, hbtd, new, hmel, hallok, hhead, hempty, hlast⟩ := hinv
    simp only [placeNoteLoop] at h
    by_cases hrem : 0 < remaining
    · rw [if_pos hrem] at h
      have hsub0 : 0 ≤ min remaining (td - beat) :=
        le_min hrem.le (by linarith)
      have hsubtd : beat + min remaining (td - beat) ≤ td := by
        have := min_le_right remaining (td - beat)
        linarith
      by_cases herr : (time.hyphen = none ∨ time.hyphen = some 0) ∧
          min remaining (td - beat) ≠ remaining
      · rw [if_pos herr] at h
        exact Except.noConfusion h
      · rw [if_neg herr] at h
        split at h
        next e heq => exact Except.noConfusion h
        next melody2 heq =>
        rw [if_neg (not_not_intro hsubtd)] at h
        by_cases hbz : beat = 0
        · rw [if_pos hbz, hmel, appendToLastBar_append, Except.ok.injEq] at heq
          subst heq
          refine ih _ _ _ _ _ ?_ h
          refine ⟨?_, ?_, new ++ [(time, (0 : ℚ),
            [{ note with duration := min remaining (td - beat),
                         tie := ((if first then note.tie.1 else true), note.tie.2) }])],
            by rw [List.append_assoc]; rfl, ?_, ?_, ?_, ?_⟩
          · split
            · exact le_refl 0
            · linarith
          · split
            · linarith
            · linarith
          · intro bar hbar
            rcases List.mem_append.1 hbar with hbar | hbar
            · exact hallok bar hbar
            · rw [List.mem_singleton.1 hbar]
              simp only [sumDur_cons, sumDur_nil]
              have : min remaining (td - beat) ≤ td := by
                have := min_le_right remaining (td - beat)
                linarith
              simpa using this
          · intro hb hhb
            cases hnew : new with
            | nil =>
              rw [hnew, List.nil_append, List.head?_cons, Option.some_inj] at hhb
              rw [← hhb]
              rw [hnew] at hempty
              have hb0eq : beat = beat0 := hempty rfl
              rw [← hb0eq, hbz]
            | cons a t =>
              refine hhead hb ?_
              rw [hnew, head?_append_left (by simp)] at hhb
              rw [hnew]
              exact hhb
          · intro habs
            exact absurd habs (by simp)
          · intro hne
            by_cases hcap : beat + min remaining (td - beat) = td
            · rw [if_pos hcap] at hne
              exact absurd rfl hne
            · rw [if_neg hcap]
              refine ⟨new, _, rfl, ?_⟩
              simp only [sumDur_cons, sumDur_nil]
              rw [hbz]
              ring
        · obtain ⟨pre, lb, hpre, hlbsum⟩ := hlast hbz
          rw [if_neg hbz, hmel, hpre, ← List.append_assoc, appendToLastBar_append,
            Except.ok.injEq] at heq
          subst heq
          refine ih _ _ _ _ _ ?_ h
          refine ⟨?_, ?_, pre ++ [(lb.1, lb.2.1, lb.2.2 ++
            [{ note with duration := min remaining (td - beat),
                         tie := ((if first then note.tie.1 else true), note.tie.2) }])],
            by rw [List.append_assoc], ?_, ?_, ?_, ?_⟩
          · split
            · exact le_refl 0
            · linarith
          · split
            · linarith
            · linarith
          · intro bar hbar
            rcases List.mem_append.1 hbar with hbar | hbar
            · exact hallok bar (by rw [hpre]; exact List.mem_append_left _ hbar)
            · rw [List.mem_singleton.1 hbar]
              simp only [sumDur_append, sumDur_cons, sumDur_nil]
              have h1 : lb.2.1 + (sumDur lb.2.2 + (min remaining (td - beat) + 0)) =
                  beat + min remaining (td - beat) := by rw [← hlbsum]; ring
              rw [h1]
              exact hsubtd
          · intro hb hhb
            cases hp : pre with
            | nil =>
              rw [hp, List.nil_append, List.head?_cons, Option.some_inj] at hhb
              have : lb.2.1 = beat0 := by
                refine hhead lb ?_
                rw [hpre, hp, List.nil_append, List.head?_cons]
              rw [← hhb]
              exact this
            | cons a t =>
              refine hhead hb ?_
              rw [hp, head?_append_left (by simp)] at hhb
              rw [hpre, hp, head?_append_left (by simp)]
              exact hhb
          · intro habs
            exact absurd habs (by simp)
          · intro hne
            by_cases hcap : beat + min remaining (td - beat) = td
            · rw [if_pos hcap] at hne
              exact absurd rfl hne
            · rw [if_neg hcap]
              refine ⟨pre, _, rfl, ?_⟩
              simp only [sumDur_append, sumDur_cons, sumDur_nil]
              rw [← hlbsum]
              ring
    · rw [if_neg hrem] at h
      rw [Except.ok.injEq] at h
      rw [← h]
      exact ⟨hb0, hbtd, new, hmel, hallok, hhead, hempty, hlast⟩

lemma placeNotes_inv (time : Time) (td : ℚ) (melody₀ : List Bar) (beat0 : ℚ) :
    ∀ notes beat mel res,
      BarsInv melody₀ td beat0 beat mel →
      placeNotes time td notes beat mel = Except.ok res →
      BarsInv melody₀ td beat0 res.1 res.2 := by
  intro notes
  induction notes with
  | nil =>
    intro beat mel res hinv h
    rw [placeNotes, Except.ok.injEq] at h
    rw [← h]
    exact hinv
  | cons n rest ih =>
    intro beat mel res hinv h
    simp only [placeNotes] at h
    split at h
    · exact Except.noConfusion h
    · split at h
      next e heq => exact Except.noConfusion h
      next b1 m1 heq =>
        exact ih b1 m1 res
          (placeNoteLoop_inv time td n melody₀ beat0 _ _ _ _ _ _ hinv heq) h

lemma tokenToNotes_nonneg (key : Option KeyVal) (time : Time) (tok : NoteTok)
    (notes : List Note) (d : ℚ)
    (h : tokenToNotes key time tok = Except.ok (notes, d)) : 0 ≤ d := by
  have h23 : (0 : ℚ) ≤ 2 - 1 / 2 ^ tok.dots := by
    have h1 : (1 : ℚ) / 2 ^ tok.dots ≤ 1 := by
      rw [div_le_one (by positivity)]
      exact one_le_pow₀ one_le_two
    linarith
  simp only [tokenToNotes] at h
  split at h
  · exact Except.noConfusion h
  · split at h
    next e heq => exact Except.noConfusion h
    next dur da heq =>
      split at h
      next e heq2 => exact Except.noConfusion h
      next ns heq2 =>
        rw [Except.ok.injEq, Prod.mk.injEq] at h
        rw [← h.2]
        refine mul_nonneg ?_ (Nat.cast_nonneg _)
        have htrip : (0 : ℚ) ≤ if tok.triplet then 2 / 3 else 1 := by
          split
          · norm_num
          · norm_num
        split at heq
        · split at heq
          · rw [Except.ok.injEq, Prod.mk.injEq] at heq
            rw [← heq.1]
            exact mul_nonneg (mul_nonneg (by positivity) h23) htrip
          · split at heq <;> split at heq <;> try exact Except.noConfusion heq
            all_goals
              (split at heq
               · exact Except.noConfusion heq
               · rw [Except.ok.injEq, Prod.mk.injEq] at heq
                 rw [← heq.1]
                 positivity)
        · rw [Except.ok.injEq, Prod.mk.injEq] at heq
          rw [← heq.1]
          exact mul_nonneg (mul_nonneg (by positivity) h23) htrip

lemma tokensToNotes_nonneg (key : Option KeyVal) (time : Time) :
    ∀ toks notes d, tokensToNotes key time toks = Except.ok (notes, d) → 0 ≤ d := by
  intro toks
  induction toks with
  | nil =>
    intro notes d h
    rw [tokensToNotes, Except.ok.injEq, Prod.mk.injEq] at h
    rw [← h.2]
  | cons tok rest ih =>
    intro notes d h
    rw [tokensToNotes] at h
    split at h
    next e heq => exact Except.noConfusion h
    next n1 d1 heq =>
      split at h
      next e heq2 => exact Except.noConfusion h
      next n2 d2 heq2 =>
        rw [Except.ok.injEq, Prod.mk.injEq] at h
        rw [← h.2]
        exact add_nonneg (tokenToNotes_nonneg key time tok n1 d1 heq) (ih n2 d2 heq2)

lemma processBar_spec (key : Option KeyVal) (time : Time) (i numBars : ℕ)
    (bar : List Char) (mel mel' : List Bar)
    (h : processBar key time i numBars bar mel = Except.ok mel') :
    ∃ new, mel' = mel ++ new ∧
      (∀ u : ℕ, time.upper = some u →
        ∀ b ∈ new, b.2.1 + sumDur b.2.2 ≤ (if time.lower = 4 then (u : ℚ) else (u : ℚ) / 2)) ∧
      (¬(i = 0 ∧ 1 < numBars) → ∀ hb, new.head? = some hb → hb.2.1 = 0) := by
  simp only [processBar] at h
  by_cases hbar : bar = []
  · rw [if_pos hbar, Except.ok.injEq] at h
    refine ⟨[], by rw [← h, List.append_nil], ?_, ?_⟩
    · intro u hu b hb
      exact absurd hb (List.not_mem_nil b)
    · intro hni hb hhb
      simp at hhb
  · rw [if_neg hbar] at h
    split at h
    · exact Except.noConfusion h
    · split at h
      next e heq1 => exact Except.noConfusion h
      next note_list bar_duration heq1 =>
        split at h
        · exact Except.noConfusion h
        · have hbd : 0 ≤ bar_duration := tokensToNotes_nonneg key time _ note_list bar_duration heq1
          have htd : 0 ≤ timeDurationOf time bar_duration := by
            rcases hup : time.upper with _ | u
            · simp only [timeDurationOf, hup]
              exact hbd
            · simp only [timeDurationOf, hup]
              split
              · exact Nat.cast_nonneg u
              · positivity
          split at h
          next e heq2 => exact Except.noConfusion h
          next beat heq2 =>
            split at h
            next e heq3 => exact Except.noConfusion h
            next b2 melody2 heq3 =>
              rw [Except.ok.injEq] at h
              have hbeat : 0 ≤ beat ∧ beat ≤ timeDurationOf time bar_duration ∧
                  (¬(i = 0 ∧ 1 < numBars) → beat = 0) := by
                split at heq2
                next hcond =>
                  split at heq2
                  · exact Except.noConfusion heq2
                  next htdne =>
                    rw [Except.ok.injEq] at heq2
                    have htdpos : 0 < timeDurationOf time bar_duration :=
                      lt_of_le_of_ne htd (Ne.symm htdne)
                    refine ⟨?_, ?_, ?_⟩
                    · rw [← heq2]
                      exact pyMod_nonneg _ _ htdpos
                    · rw [← heq2]
                      exact (pyMod_lt _ _ htdpos).le
                    · intro hni
                      exact absurd hcond hni
                next hcond =>
                  rw [Except.ok.injEq] at heq2
                  refine ⟨?_, ?_, ?_⟩
                  · rw [← heq2]
                  · rw [← heq2]
                    exact htd
                  · intro _
                    exact heq2.symm
              have hinv0 : BarsInv mel (timeDurationOf time bar_duration) beat beat
                  (if 0 < beat then mel ++ [(time, beat, ([] : List Note))] else mel) := by
                by_cases hbp : 0 < beat
                · rw [if_pos hbp]
                  refine ⟨hbeat.1, hbeat.2.1, [(time, beat, [])], rfl, ?_, ?_, ?_, ?_⟩
                  · intro b hb
                    rw [List.mem_singleton.1 hb]
                    show beat + sumDur [] ≤ _
                    rw [sumDur_nil, add_zero]
                    exact hbeat.2.1
                  · intro hb hhb
                    rw [List.head?_cons, Option.some_inj] at hhb
                    rw [← hhb]
                  · intro habs
                    exact absurd habs (by simp)
                  · intro hne
                    refine ⟨[], (time, beat, []), rfl, ?_⟩
                    show beat + sumDur [] = beat
                    rw [sumDur_nil, add_zero]
                · rw [if_neg hbp]
                  refine ⟨hbeat.1, hbeat.2.1, [], (List.append_nil mel).symm, ?_, ?_, ?_, ?_⟩
                  · intro b hb
                    exact absurd hb (List.not_mem_nil b)
                  · intro hb hhb
                    simp at hhb
                  · intro _
                    rfl
                  · intro hne
                    exact absurd (le_antisymm (not_lt.1 hbp) hbeat.1) hne
              obtain ⟨-, -, new, hmel2, hallok2, hhead2, -, -⟩ :=
                placeNotes_inv time (timeDurationOf time bar_duration) mel beat
                  note_list beat _ (b2, melody2) hinv0 heq3
              refine ⟨new, by rw [← h]; exact hmel2, ?_, ?_⟩
              · intro u hu b hb
                have hcap := hallok2 b hb
                have htdeq : timeDurationOf time bar_duration =
                    (if time.lower = 4 then (u : ℚ) else (u : ℚ) / 2) := by
                  simp only [timeDurationOf, hu]
                rw [htdeq] at hcap
                exact hcap
              · intro hni hb hhb
                have := hhead2 hb hhb
                rw [this]
                exact hbeat.2.2 hni

lemma processBars_spec (key : Option KeyVal) (time : Time) :
    ∀ bars i numBars mel mel',
      processBars key time i numBars bars mel = Except.ok mel' →
      ∃ new, mel' = mel ++ new ∧
        (∀ u : ℕ, time.upper = some u →
          ∀ b ∈ new, b.2.1 + sumDur b.2.2 ≤ (if time.lower = 4 then (u : ℚ) else (u : ℚ) / 2)) := by
  intro bars
  induction bars with
  | nil =>
    intro i numBars mel mel' h
    rw [processBars, Except.ok.injEq] at h
    refine ⟨[], by rw [← h, List.append_nil], ?_⟩
    intro u hu b hb
    exact absurd hb (List.not_mem_nil b)
  | cons bar rest ih =>
    intro i numBars mel mel' h
    rw [processBars] at h
    split at h
    next e heq => exact Except.noConfusion h
    next mel1 heq =>
      obtain ⟨new1, hm1, hcap1, -⟩ := processBar_spec key time i numBars bar mel mel1 heq
      obtain ⟨new2, hm2, hcap2⟩ := ih (i + 1) numBars mel1 mel' h
      refine ⟨new1 ++ new2, by rw [hm2, hm1, List.append_assoc], ?_⟩
      intro u hu b hb
      rcases List.mem_append.1 hb with hb | hb
      · exact hcap1 u hu b hb
      · exact hcap2 u hu b hb

lemma processBars_head_start (key : Option KeyVal) (time : Time) :
    ∀ bars i numBars mel mel',
      1 ≤ i →
      processBars key time i numBars bars mel = Except.ok mel' →
      ∃ new, mel' = mel ++ new ∧ ∀ hb, new.head? = some hb → hb.2.1 = 0 := by
  intro bars
  induction bars with
  | nil =>
    intro i numBars mel mel' hi h
    rw [processBars, Except.ok.injEq] at h
    refine ⟨[], by rw [← h, List.append_nil], ?_⟩
    intro hb hhb
    simp at hhb
  | cons bar rest ih =>
    intro i numBars mel mel' hi h
    rw [processBars] at h
    split at h
    next e heq => exact Except.noConfusion h
    next mel1 heq =>
      obtain ⟨new1, hm1, -, hhd1⟩ := processBar_spec key time i numBars bar mel mel1 heq
      obtain ⟨new2, hm2, hhd2⟩ := ih (i + 1) numBars mel1 mel' (by omega) h
      have hnotpick : ¬(i = 0 ∧ 1 < numBars) := by
        rintro ⟨hi0, -⟩
        omega
      refine ⟨new1 ++ new2, by rw [hm2, hm1, List.append_assoc], ?_⟩
      intro hb hhb
      cases hn1 : new1 with
      | nil =>
        rw [hn1, List.nil_append] at hhb
        exact hhd2 hb hhb
      | cons a t =>
        rw [hn1, head?_append_left (by simp)] at hhb
        refine hhd1 hnotpick hb ?_
        rw [hn1]
        exact hhb

/-- C3 (amended): after `Song.append_time_signature` under a fixed time
signature (`upper ≠ none`), every bar appended to the melody satisfies
`start_beat + (sum of its note durations) ≤ time_duration`, where
`time_duration` is `upper` beats when `lower = 4` and `upper / 2` beats
otherwise.  The original claim — that the durations of every appended bar
sum exactly to `time_duration` — is refuted by
`append_time_signature_partial_bar`: trailing bars (and pickup bars) may be
partial. -/
theorem append_time_signature_capacity (key : Option KeyVal) (t : Time) (u : ℕ)
    (s : String) (melody melody' : List Bar)
    (hu : t.upper = some u)
    (h : Song.append_time_signature key (some t) s melody = Except.ok melody') :
    ∃ new, melody' = melody ++ new ∧
      ∀ b ∈ new, b.2.1 + sumDur b.2.2 ≤ (if t.lower = 4 then (u : ℚ) else (u : ℚ) / 2) := by
  simp only [Song.append_time_signature] at h
  by_cases hs : s = ""
  · rw [if_pos hs, Except.ok.injEq] at h
    refine ⟨[], by rw [← h, List.append_nil], ?_⟩
    intro b hb
    exact absurd hb (List.not_mem_nil b)
  · rw [if_neg hs] at h
    obtain ⟨new, hm, hcap⟩ := processBars_spec key t _ 0 _ melody melody' h
    exact ⟨new, hm, hcap u hu⟩

/-- C3 counterexample: appending the bar text `"1"` under 4/4 succeeds and
produces a bar whose note durations sum to 1 — not to the bar's
`time_duration` 4 — so a bar under a fixed time signature need not be
full. -/
theorem append_time_signature_partial_bar :
    Song.append_time_signature (some (KeyVal.movable 1 0 [0, 0, 0, 0, 0, 0, 0, 0]))
        (some ⟨some 4, 4, none⟩) "1" [] =
      Except.ok [(⟨some 4, 4, none⟩, 0,
        [{ acc := none, _name := 1, octave := 0, duration := 1,
           lines := some 0, dots := some 0, tie := (false, false) }])] ∧
    sumDur [{ acc := none, _name := 1, octave := 0, duration := 1,
              lines := some 0, dots := some 0, tie := (false, false) }] ≠ (4 : ℚ) := by
  constructor
  · decide
  · decide

theorem append_time_signature_capacity_witness :
    ∃ new,
      [((⟨some 4, 4, none⟩ : Time), (0 : ℚ),
        [{ acc := none, _name := 1, octave := 0, duration := 1,
           lines := some 0, dots := some 0, tie := (false, false) }])] =
        ([] : List Bar) ++ new ∧
      ∀ b ∈ new, b.2.1 + sumDur b.2.2 ≤
        (if (⟨some 4, 4, none⟩ : Time).lower = 4 then ((4 : ℕ) : ℚ) else ((4 : ℕ) : ℚ) / 2) :=
  append_time_signature_capacity (some (KeyVal.movable 1 0 [0, 0, 0, 0, 0, 0, 0, 0]))
    ⟨some 4, 4, none⟩ 4 "1" [] _ rfl (by decide)

/-- C9: empty bar segments produced by splitting the bar text on `|` are
skipped without error (`processBar` on an empty segment returns the melody
unchanged), and because the pickup rule applies only to index 0 of the raw
split, a bar text beginning with `|` produces no pickup bar: every bar it
appends — in particular the first one — has starting beat 0, even when more
bars follow. -/
theorem append_time_signature_empty_segments :
    (∀ (key : Option KeyVal) (t : Time) (i numBars : ℕ) (mel : List Bar),
      processBar key t i numBars [] mel = Except.ok mel) ∧
    (∀ (key : Option KeyVal) (t : Time) (s : String) (melody melody' : List Bar),
      (splitOnChar '|' s.data).head? = some [] →
      Song.append_time_signature key (some t) s melody = Except.ok melody' →
      ∃ new, melody' = melody ++ new ∧ ∀ hb, new.head? = some hb → hb.2.1 = 0) := by
  constructor
  · intro key t i numBars mel
    rfl
  · intro key t s melody melody' hlead h
    simp only [Song.append_time_signature] at h
    by_cases hs : s = ""
    · rw [if_pos hs, Except.ok.injEq] at h
      refine ⟨[], by rw [← h, List.append_nil], ?_⟩
      intro hb hhb
      simp at hhb
    · rw [if_neg hs] at h
      have hbars : ∃ rest, splitOnChar '|' s.data = [] :: rest := by
        cases hsp : splitOnChar '|' s.data with
        | nil => rw [hsp] at hlead; exact Option.noConfusion hlead
        | cons b r =>
          rw [hsp, List.head?_cons, Option.some_inj] at hlead
          exact ⟨r, by rw [← hlead]⟩
      obtain ⟨rest, hbars⟩ := hbars
      rw [hbars] at h
      rw [processBars] at h
      split at h
      next e heq =>
        rw [show processBar key t 0 ([] :: rest).length [] melody = Except.ok melody from rfl]
          at heq
        exact Except.noConfusion heq
      next mel1 heq =>
        rw [show processBar key t 0 ([] :: rest).length [] melody = Except.ok melody from rfl,
          Except.ok.injEq] at heq
        rw [← heq] at h
        exact processBars_head_start key t rest (0 + 1) ([] :: rest).length melody melody'
          (by omega) h

/-! ### `Song.merge_melody_lyrics` (the Aligner, §4.5): data model and loop -/

/-- A bar of a layout line: `(time, start_beat, node indices)`. -/
abbrev LineBar := Time × ℚ × List ℕ

/-- A layout line `[nodes, bars, ties, slurs]`. -/
structure Line where
  nodes : List PNode
  bars : List LineBar
  ties : List (ℤ × ℕ)
  slurs : List (ℕ × ℕ)
deriving DecidableEq, Repr

def Line.empty : Line := ⟨[], [], [], []⟩

/-- Mutable state of the melody-splitting loop of `merge_melody_lyrics`. -/
structure MergeSt where
  lyrics_idx : ℕ
  section_added : Bool
  line_added : Bool
  line_node_idx_prev : ℤ
  potential_slur_start : Option ℕ
  sections : List (String × List Line)
deriving DecidableEq, Repr

/-- Python `dict.get` for the insertion-ordered `split_sections` dict
(a later write to the same key wins). -/
def dictGetLast : List (ℕ × String) → ℕ → Option String
  | [], _ => none
  | (k, v) :: rest, key =>
    match dictGetLast rest key with
    | some v2 => some v2
    | none => if k = key then some v else none

/-- The inner loop of the split-index pre-pass: reject a line of lyrics
starting with `~`, record its split index, and accumulate `sum_len`. -/
def buildSplitLines : List String → ℕ → Except String (List ℕ × ℕ)
  | [], sum_len => Except.ok ([], sum_len)
  | s :: rest, sum_len =>
    if s.data.head? = some '~' then
      Except.error "ValueError: a line of lyrics cannot start with tilde"
    else
      match buildSplitLines rest (sum_len + s.data.length) with
      | Except.error e => Except.error e
      | Except.ok (lns, total) => Except.ok (sum_len :: lns, total)

/-- The split-index pre-pass of `merge_melody_lyrics`: compute
`split_sections` (as an insertion-ordered dict) and `split_lines`. -/
def buildSplits : List (String × List String) → ℕ →
    Except String (List (ℕ × String) × List ℕ × ℕ)
  | [], sum_len => Except.ok ([], [], sum_len)
  | (tag, lyrics) :: rest, sum_len =>
    match buildSplitLines lyrics sum_len with
    | Except.error e => Except.error e
    | Except.ok (lns1, sum_len2) =>
      match buildSplits rest sum_len2 with
      | Except.error e => Except.error e
      | Except.ok (secs, lns2, total) =>
        Except.ok ((sum_len, tag) :: secs, lns1 ++ lns2, total)

/-- `"".join(["".join(section[1]) for section in self.lyrics])`. -/
def allLyricsChars (lyrics : List (String × List String)) : List Char :=
  lyrics.flatMap (fun sec => sec.2.flatMap String.data)

/-- `sections.append((tag, []))` guarded by `tag and not section_added` and
`note.may_start_new_line` (an empty tag is falsy in Python). -/
def newSectionStep (tag : Option String) (may : Bool) (secAdded : Bool)
    (sections : List (String × List Line)) : List (String × List Line) × Bool :=
  match tag with
  | some t =>
    if t ≠ "" ∧ secAdded = false ∧ may = true then (sections ++ [(t, [])], true)
    else (sections, secAdded)
  | none => (sections, secAdded)

/-- `sections[-1][1].append(line)`. -/
def appendLineLast : List (String × List Line) → Line → Except String (List (String × List Line))
  | [], _ => Except.error "IndexError: list index out of range"
  | [(tag, lns)], l => Except.ok [(tag, lns ++ [l])]
  | s :: rest, l =>
    match appendLineLast rest l with
    | Except.error e => Except.error e
    | Except.ok rest2 => Except.ok (s :: rest2)

/-- `sections[-1][1][-1]`. -/
def lastLine : List (String × List Line) → Except String Line
  | [] => Except.error "IndexError: list index out of range"
  | [(_, lns)] =>
    match lns.getLast? with
    | none => Except.error "IndexError: list index out of range"
    | some l => Except.ok l
  | _ :: rest => lastLine rest

/-- Write back the (mutated) last line of the last section. -/
def setLastLine : List (String × List Line) → Line → Except String (List (String × List Line))
  | [], _ => Except.error "IndexError: list index out of range"
  | [(tag, lns)], l =>
    if lns = [] then Except.error "IndexError: list index out of range"
    else Except.ok [(tag, lns.dropLast ++ [l])]
  | s :: rest, l =>
    match setLastLine rest l with
    | Except.error e => Except.error e
    | Except.ok rest2 => Except.ok (s :: rest2)

/-- `bars[-1][-1].append(idx)`. -/
def appendIdxLast : List LineBar → ℕ → Except String (List LineBar)
  | [], _ => Except.error "IndexError: list index out of range"
  | [(t, b, idxs)], idx => Except.ok [(t, b, idxs ++ [idx])]
  | bar :: rest, idx =>
    match appendIdxLast rest idx with
    | Except.error e => Except.error e
    | Except.ok rest2 => Except.ok (bar :: rest2)

/-- `nodes[line_node_idx_prev].value.tie[1] = True` (fails on a dash or dot
node, which has no `Note` value). -/
def setNodeTie1 : PNode → Except String PNode
  | PNode.note v l d t => Except.ok (PNode.note { v with tie := (v.tie.1, true) } l d t)
  | _ => Except.error "AttributeError"

/-- Append `count` dash (or dot) nodes, each registered in the last bar. -/
def appendRun : ℕ → PNode → List PNode → List LineBar →
    Except String (List PNode × List LineBar)
  | 0, _, nodes, bars => Except.ok (nodes, bars)
  | c + 1, pn, nodes, bars =>
    match appendIdxLast bars nodes.length with
    | Except.error e => Except.error e
    | Except.ok bars2 => appendRun c pn (nodes ++ [pn]) bars2

/-- One iteration of the `for k, note in enumerate(notes)` loop of
`merge_melody_lyrics`: section/line creation, bar creation, slur tracking,
`Node` construction, tie bookkeeping, lyric consumption and dash/dot
padding. -/
def processNote (all_lyrics : List Char) (num_words : ℕ)
    (split_sections : List (ℕ × String)) (split_lines : List ℕ)
    (time : Time) (beat : ℚ) (k : ℕ) (note : Note) (st : MergeSt) :
    Except String MergeSt :=
  let step1 := newSectionStep (dictGetLast split_sections st.lyrics_idx)
    note.may_start_new_line st.section_added st.sections
  match (if st.lyrics_idx ∈ split_lines ∧ st.line_added = false ∧
            note.may_start_new_line = true then
           match appendLineLast step1.1 Line.empty with
           | Except.error e => Except.error e
           | Except.ok secs => Except.ok (secs, true, (-1 : ℤ), (none : Option ℕ))
         else
           Except.ok (step1.1, st.line_added, st.line_node_idx_prev,
             st.potential_slur_start)) with
  | Except.error e => Except.error e
  | Except.ok (sections2, line_added2, lnip2, pss2) =>
    match lastLine sections2 with
    | Except.error e => Except.error e
    | Except.ok line =>
      let line_node_idx := line.nodes.length
      let bars2 := if k = 0 ∨ line.bars = [] then line.bars ++ [(time, beat, [])]
                   else line.bars
      match (if note.is_rest then Except.ok (line.slurs, (none : Option ℕ))
             else if note.tie.1 then Except.ok (line.slurs, pss2)
             else
               match all_lyrics[st.lyrics_idx]? with
               | none => Except.error "IndexError: string index out of range"
               | some c =>
                 if c = '~' then
                   (if st.lyrics_idx = num_words - 1 ∨
                       ¬all_lyrics[st.lyrics_idx + 1]? = some '~' then
                      match pss2 with
                      | none => Except.error "ValueError: start note of slur not found"
                      | some p => Except.ok (line.slurs ++ [(p, line_node_idx)],
                          (none : Option ℕ))
                    else Except.ok (line.slurs, pss2))
                 else Except.ok (line.slurs, some line_node_idx)) with
      | Except.error e => Except.error e
      | Except.ok (slurs3, pss3) =>
        match Node.initNote note with
        | Except.error e => Except.error e
        | Except.ok pn =>
          match pn with
          | PNode.note v (some l) (some d) t =>
            match appendIdxLast bars2 line_node_idx with
            | Except.error e => Except.error e
            | Except.ok bars3 =>
              match (if note.tie.1 then
                       match pyGet line.nodes lnip2 with
                       | Except.error e => Except.error e
                       | Except.ok prevNode =>
                         match setNodeTie1 prevNode with
                         | Except.error e => Except.error e
                         | Except.ok prevNode2 =>
                           match pySet line.nodes lnip2 prevNode2 with
                           | Except.error e => Except.error e
                           | Except.ok nodes2 =>
                             Except.ok (nodes2,
                               line.ties ++ [(lnip2, line_node_idx)],
                               PNode.note { v with tie := (true, v.tie.2) }
                                 (some l) (some d) t,
                               st.lyrics_idx, step1.2, line_added2)
                     else if note.to_match_lyrics then
                       (if num_words ≤ st.lyrics_idx then
                          Except.error "ValueError: #notes > num_words words"
                        else
                          match all_lyrics[st.lyrics_idx]? with
                          | none => Except.error "IndexError: string index out of range"
                          | some c =>
                            if note.is_rest then
                              (if ¬c = 'O' then
                                 Except.error "ValueError: note O cannot match lyrics"
                               else
                                 Except.ok (line.nodes, line.ties,
                                   PNode.note v (some l) (some d) t,
                                   st.lyrics_idx + 1, false, false))
                            else if ¬c = '~' then
                              Except.ok (line.nodes, line.ties,
                                PNode.note v (some l) (some d) (some c),
                                st.lyrics_idx + 1, false, false)
                            else
                              Except.ok (line.nodes, line.ties,
                                PNode.note v (some l) (some d) t,
                                st.lyrics_idx + 1, false, false))
                     else
                       Except.ok (line.nodes, line.ties,
                         PNode.note v (some l) (some d) t,
                         st.lyrics_idx, step1.2, line_added2)) with
              | Except.error e => Except.error e
              | Except.ok (nodes3, ties3, node3, lyrics_idx3, section_added3, line_added3) =>
                let nodes4 := nodes3 ++ [node3]
                match appendRun l.toNat PNode.dash nodes4 bars3 with
                | Except.error e => Except.error e
                | Except.ok (nodes5, bars5) =>
                  match appendRun d PNode.dot nodes5 bars5 with
                  | Except.error e => Except.error e
                  | Except.ok (nodes6, bars6) =>
                    match setLastLine sections2 ⟨nodes6, bars6, ties3, slurs3⟩ with
                    | Except.error e => Except.error e
                    | Except.ok sections3 =>
                      Except.ok ⟨lyrics_idx3, section_added3, line_added3,
                        (line_node_idx : ℤ), pss3, sections3⟩
          | _ => Except.error "TypeError"

/-- The `for k, note in enumerate(notes)` loop (threading `beat`). -/
def processMergeNotes (all_lyrics : List Char) (num_words : ℕ)
    (split_sections : List (ℕ × String)) (split_lines : List ℕ) (time : Time) :
    List Note → ℕ → ℚ → MergeSt → Except String MergeSt
  | [], _, _, st => Except.ok st
  | note :: rest, k, beat, st =>
    match processNote all_lyrics num_words split_sections split_lines time beat k note st with
    | Except.error e => Except.error e
    | Except.ok st2 =>
      processMergeNotes all_lyrics num_words split_sections split_lines time
        rest (k + 1) (beat + note.duration) st2

/-- The `for time, start_beat, notes in self.melody` loop. -/
def processMergeBars (all_lyrics : List Char) (num_words : ℕ)
    (split_sections : List (ℕ × String)) (split_lines : List ℕ) :
    List Bar → MergeSt → Except String MergeSt
  | [], st => Except.ok st
  | (time, start_beat, notes) :: rest, st =>
    match processMergeNotes all_lyrics num_words split_sections split_lines time
        notes 0 start_beat st with
    | Except.error e => Except.error e
    | Except.ok st2 =>
      processMergeBars all_lyrics num_words split_sections split_lines rest st2

/-- `Song.merge_melody_lyrics()` (`self.lyrics` and `self.melody` passed
explicitly). -/
def Song.merge_melody_lyrics (lyrics : List (String × List String))
    (melody : List Bar) : Except String (List (String × List Line)) :=
  match buildSplits lyrics 0 with
  | Except.error e => Except.error e
  | Except.ok (split_sections, split_lines, _) =>
    let all_lyrics := allLyricsChars lyrics
    let num_words := all_lyrics.length
    match processMergeBars all_lyrics num_words split_sections split_lines melody
        ⟨0, false, false, -1, none, []⟩ with
    | Except.error e => Except.error e
    | Except.ok st =>
      if st.lyrics_idx ≠ num_words then
        Except.error "ValueError: notes != words"
      else Except.ok st.sections

/-- Number of lyric-consuming notes (`to_match_lyrics`) in the melody. -/
def countToMatch (melody : List Bar) : ℕ :=
  (melody.flatMap (fun b => b.2.2)).countP (fun n => n.to_match_lyrics)

lemma newSectionStep_not_may (tag : Option String) (sa : Bool)
    (secs : List (String × List Line)) :
    newSectionStep tag false sa secs = (secs, sa) := by
  cases tag with
  | none => rfl
  | some t => simp [newSectionStep]

lemma processNote_lyrics_idx (all_lyrics : List Char) (num_words : ℕ)
    (split_sections : List (ℕ × String)) (split_lines : List ℕ)
    (time : Time) (beat : ℚ) (k : ℕ) (note : Note) (st st2 : MergeSt)
    (h : processNote all_lyrics num_words split_sections split_lines time beat k note st =
      Except.ok st2) :
    st2.lyrics_idx = st.lyrics_idx + (if note.to_match_lyrics then 1 else 0) := by
  simp only [processNote] at h
  split at h <;> try exact Except.noConfusion h
  split at h <;> try exact Except.noConfusion h
  split at h <;> try exact Except.noConfusion h
  split at h <;> try exact Except.noConfusion h
  split at h <;> try exact Except.noConfusion h
  split at h <;> try exact Except.noConfusion h
  split at h
  · exact Except.noConfusion h
  next nodes3 ties3 node3 lyrics_idx3 section_added3 line_added3 heqBig =>
    split at h <;> try exact Except.noConfusion h
    split at h <;> try exact Except.noConfusion h
    split at h <;> try exact Except.noConfusion h
    rw [Except.ok.injEq] at h
    rw [← h]
    show lyrics_idx3 = _
    split at heqBig
    next htie =>
      split at heqBig <;> try exact Except.noConfusion heqBig
      split at heqBig <;> try exact Except.noConfusion heqBig
      split at heqBig <;> try exact Except.noConfusion heqBig
      simp only [Except.ok.injEq, Prod.mk.injEq] at heqBig
      obtain ⟨-, -, -, hidx, -, -⟩ := heqBig
      rw [← hidx]
      simp [Note.to_match_lyrics, htie]
    next htie =>
      split at heqBig
      next hto =>
        split at heqBig
        · exact Except.noConfusion heqBig
        · split at heqBig
          · exact Except.noConfusion heqBig
          next c heqc =>
            split at heqBig
            · split at heqBig
              · exact Except.noConfusion heqBig
              · simp only [Except.ok.injEq, Prod.mk.injEq] at heqBig
                obtain ⟨-, -, -, hidx, -, -⟩ := heqBig
                rw [← hidx, hto]
                simp
            · split at heqBig
              · simp only [Except.ok.injEq, Prod.mk.injEq] at heqBig
                obtain ⟨-, -, -, hidx, -, -⟩ := heqBig
                rw [← hidx, hto]
                simp
              · simp only [Except.ok.injEq, Prod.mk.injEq] at heqBig
                obtain ⟨-, -, -, hidx, -, -⟩ := heqBig
                rw [← hidx, hto]
                simp
      next hto =>
        simp only [Except.ok.injEq, Prod.mk.injEq] at heqBig
        obtain ⟨-, -, -, hidx, -, -⟩ := heqBig
        rw [← hidx]
        simp [hto]

lemma processMergeNotes_lyrics_idx (al : List Char) (nw : ℕ) (ss : List (ℕ × String))
    (sl : List ℕ) (time : Time) :
    ∀ notes k beat st st2,
      processMergeNotes al nw ss sl time notes k beat st = Except.ok st2 →
      st2.lyrics_idx = st.lyrics_idx + notes.countP (fun n => n.to_match_lyrics) := by
  intro notes
  induction notes with
  | nil =>
    intro k beat st st2 h
    rw [processMergeNotes, Except.ok.injEq] at h
    rw [← h, List.countP_nil, Nat.add_zero]
  | cons n rest ih =>
    intro k beat st st2 h
    rw [processMergeNotes] at h
    split at h
    next e heq => exact Except.noConfusion h
    next stm heq =>
      rw [ih (k + 1) (beat + n.duration) stm st2 h,
        processNote_lyrics_idx al nw ss sl time beat k n st stm heq,
        List.countP_cons]
      cases hb : n.to_match_lyrics <;> simp [hb] <;> omega

lemma processMergeBars_lyrics_idx (al : List Char) (nw : ℕ) (ss : List (ℕ × String))
    (sl : List ℕ) :
    ∀ melody st st2,
      processMergeBars al nw ss sl melody st = Except.ok st2 →
      st2.lyrics_idx = st.lyrics_idx + countToMatch melody := by
  intro melody
  induction melody with
  | nil =>
    intro st st2 h
    rw [processMergeBars, Except.ok.injEq] at h
    rw [← h]
    simp [countToMatch]
  | cons bar rest ih =>
    intro st st2 h
    rcases bar with ⟨time, start_beat, notes⟩
    rw [processMergeBars] at h
    split at h
    next e heq => exact Except.noConfusion h
    next stm heq =>
      rw [ih stm st2 h,
        processMergeNotes_lyrics_idx al nw ss sl time notes 0 start_beat st stm heq]
      simp only [countToMatch, List.flatMap_cons, List.countP_append]
      omega

/-- C5 (amended): when `Song.merge_melody_lyrics` succeeds, the number of
lyric-consuming notes (those with `to_match_lyrics`) equals the TOTAL
number of lyric characters, INCLUDING the `~` slur-continuation characters:
`num_words = len(all_lyrics)` in the code counts `~`, and each consuming
note — also one under a slur — consumes exactly one character.  The claim
as stated (equality with the count of non-`~` characters, and failure on
any other input) is refuted by `merge_count_tilde_counterexample`. -/
theorem merge_melody_lyrics_count (lyrics : List (String × List String))
    (melody : List Bar) (sections : List (String × List Line))
    (h : Song.merge_melody_lyrics lyrics melody = Except.ok sections) :
    countToMatch melody = (allLyricsChars lyrics).length := by
  simp only [Song.merge_melody_lyrics] at h
  split at h
  · exact Except.noConfusion h
  next ss sl tot heq =>
    split at h
    · exact Except.noConfusion h
    next st heq2 =>
      split at h
      · exact Except.noConfusion h
      next hne =>
        have h2 : st.lyrics_idx = 0 + countToMatch melody :=
          processMergeBars_lyrics_idx (allLyricsChars lyrics) (allLyricsChars lyrics).length
            ss sl melody ⟨0, false, false, -1, none, []⟩ st heq2
        have h3 : st.lyrics_idx = (allLyricsChars lyrics).length := not_ne_iff.mp hne
        omega

/-- C5 counterexample: two lyric-consuming notes merge successfully against
the single lyric line `"a~"`, which has only ONE non-`~` character — the
count check compares against all characters including `~`, not the non-`~`
ones. -/
theorem merge_count_tilde_counterexample :
    (Song.merge_melody_lyrics [("A", ["a~"])]
        [((⟨some 2, 4, none⟩ : Time), (0 : ℚ),
          [{ acc := none, _name := 1, octave := 0, duration := 1, lines := some 0,
             dots := some 0, tie := (false, false) },
           { acc := none, _name := 2, octave := 0, duration := 1, lines := some 0,
             dots := some 0, tie := (false, false) }])]).isOk = true ∧
    countToMatch
        [((⟨some 2, 4, none⟩ : Time), (0 : ℚ),
          [{ acc := none, _name := 1, octave := 0, duration := 1, lines := some 0,
             dots := some 0, tie := (false, false) },
           { acc := none, _name := 2, octave := 0, duration := 1, lines := some 0,
             dots := some 0, tie := (false, false) }])] = 2 ∧
    ((allLyricsChars [("A", ["a~"])]).filter (fun c => ¬c = '~')).length = 1 := by
  refine ⟨?_, ?_, ?_⟩
  · decide
  · decide
  · decide

theorem merge_melody_lyrics_count_witness :
    countToMatch
        [((⟨some 2, 4, none⟩ : Time), (0 : ℚ),
          [{ acc := none, _name := 1, octave := 0, duration := 1, lines := some 0,
             dots := some 0, tie := (false, false) }])] =
      (allLyricsChars [("A", ["a"])]).length :=
  merge_melody_lyrics_count [("A", ["a"])]
    [((⟨some 2, 4, none⟩ : Time), (0 : ℚ),
      [{ acc := none, _name := 1, octave := 0, duration := 1, lines := some 0,
         dots := some 0, tie := (false, false) }])]
    [("A", [⟨[PNode.note
        { acc := none, _name := 1, octave := 0, duration := 1, lines := some 0,
          dots := some 0, tie := (false, false) } (some 0) (some 0) (some 'a')],
      [(⟨some 2, 4, none⟩, 0, [0])], [], []⟩])]
    (by decide)

lemma buildSplitLines_ok (lines : List String)
    (h : ∀ s ∈ lines, ¬s.data.head? = some '~') :
    ∀ s0, ∃ res, buildSplitLines lines s0 = Except.ok res := by
  induction lines with
  | nil =>
    intro s0
    exact ⟨([], s0), rfl⟩
  | cons s rest ih =>
    intro s0
    obtain ⟨⟨lns, total⟩, hres⟩ :=
      ih (fun x hx => h x (List.mem_cons_of_mem s hx)) (s0 + s.data.length)
    rw [buildSplitLines, if_neg (h s (List.mem_cons_self s rest)), hres]
    exact ⟨(s0 :: lns, total), rfl⟩

lemma buildSplits_ok (lyrics : List (String × List String))
    (h : ∀ sec ∈ lyrics, ∀ s ∈ sec.2, ¬s.data.head? = some '~') :
    ∀ s0, ∃ res, buildSplits lyrics s0 = Except.ok res := by
  induction lyrics with
  | nil =>
    intro s0
    exact ⟨([], [], s0), rfl⟩
  | cons sec rest ih =>
    intro s0
    rcases sec with ⟨tag, lyr⟩
    obtain ⟨⟨lns1, s1⟩, h1⟩ :=
      buildSplitLines_ok lyr (h (tag, lyr) (List.mem_cons_self _ rest)) s0
    obtain ⟨⟨secs, lns2, total⟩, h2⟩ :=
      ih (fun x hx => h x (List.mem_cons_of_mem _ hx)) s1
    simp only [buildSplits, h1, h2]
    exact ⟨((s0, tag) :: secs, lns1 ++ lns2, total), rfl⟩

/-- C10: if the very first note of the melody has
`may_start_new_line = false` (for example, the melody starts with a
trailing rest), `Song.merge_melody_lyrics` neither creates a section nor a
line for it, and the subsequent `sections[-1]` lookup on the still-empty
sections list fails with an uncaught IndexError — not with a
`FormatError` — provided no lyric line starts with `~` (otherwise the
pre-pass error fires first). -/
theorem merge_melody_lyrics_index_error (lyrics : List (String × List String))
    (t : Time) (sb : ℚ) (n : Note) (ns : List Note) (rest : List Bar)
    (hmay : n.may_start_new_line = false)
    (hnt : ∀ sec ∈ lyrics, ∀ s ∈ sec.2, ¬s.data.head? = some '~') :
    Song.merge_melody_lyrics lyrics ((t, sb, n :: ns) :: rest) =
      Except.error "IndexError: list index out of range" := by
  obtain ⟨⟨ss, sl, tot⟩, hbs⟩ := buildSplits_ok lyrics hnt 0
  have hpn : processNote (allLyricsChars lyrics) (allLyricsChars lyrics).length ss sl t sb 0 n
      ⟨0, false, false, -1, none, []⟩ =
      Except.error "IndexError: list index out of range" := by
    simp only [processNote, hmay, newSectionStep_not_may]
    rw [if_neg (by simp)]
    rfl
  have hn2 : processMergeNotes (allLyricsChars lyrics) (allLyricsChars lyrics).length ss sl t
      (n :: ns) 0 sb ⟨0, false, false, -1, none, []⟩ =
      Except.error "IndexError: list index out of range" := by
    rw [processMergeNotes, hpn]
  have hbars : processMergeBars (allLyricsChars lyrics) (allLyricsChars lyrics).length ss sl
      ((t, sb, n :: ns) :: rest) ⟨0, false, false, -1, none, []⟩ =
      Except.error "IndexError: list index out of range" := by
    rw [processMergeBars, hn2]
  simp only [Song.merge_melody_lyrics, hbs, hbars]

theorem merge_melody_lyrics_index_error_witness :
    Song.merge_melody_lyrics [("A", ["a"])]
        [((⟨some 2, 4, none⟩ : Time), (0 : ℚ),
          [{ acc := none, _name := -1, octave := 0, duration := 1, lines := some 0,
             dots := some 0, tie := (false, false) }])] =
      Except.error "IndexError: list index out of range" :=
  merge_melody_lyrics_index_error [("A", ["a"])] ⟨some 2, 4, none⟩ 0
    { acc := none, _name := -1, octave := 0, duration := 1, lines := some 0,
      dots := some 0, tie := (false, false) } [] [] (by decide) (by decide)

/-! ### `Song.group_underlines` (§4.6): underline grouping and triplet detection -/

/-- A layout line after `group_underlines`:
`[nodes, bars, ties, slurs, underlines_list, triplets]`.  The entry of
`underlines_list` at depth 0 is the initial `None`. -/
structure GLine where
  nodes : List PNode
  bars : List LineBar
  ties : List (ℤ × ℕ)
  slurs : List (ℕ × ℕ)
  underlines_list : List (Option (List (ℕ × ℕ)))
  triplets : List (List ℕ)
deriving DecidableEq, Repr

/-- Loop state of `group_underlines` within one line (`beat` and `idx_prev`
are reset per bar). -/
structure ULState where
  underlines_list : List (Option (List (ℕ × ℕ)))
  triplets : List (List ℕ)
  triplet_duration : Option ℚ
  beat : ℚ
  idx_prev : ℤ
deriving DecidableEq, Repr

/-- The triplet bookkeeping of one triplet note: close (and size-check) the
running group or extend it. -/
def tripletStep (idx : ℕ) (dur : ℚ) (new_group : Bool) (triplets : List (List ℕ))
    (triplet_duration : Option ℚ) : Except String (List (List ℕ)) :=
  if new_group = true ∨ triplets = [] ∨ ¬some dur = triplet_duration then
    match triplets.getLast? with
    | some g =>
      if g.length ≠ 3 then Except.error "ValueError: triplet with less than 3 notes"
      else Except.ok (triplets ++ [[idx]])
    | none => Except.ok (triplets ++ [[idx]])
  else
    match triplets.getLast? with
    | some g =>
      if g.length = 3 then Except.ok (triplets ++ [[idx]])
      else Except.ok (triplets.dropLast ++ [g ++ [idx]])
    | none => Except.ok (triplets ++ [[idx]])

/-- The `for k in range(1, depth + 1)` underline loop (arguments: list,
current `k`, remaining iterations). -/
def ulLoop (new_group : Bool) (idx_prev : ℤ) (idx : ℕ) :
    List (Option (List (ℕ × ℕ))) → ℕ → ℕ → Except String (List (Option (List (ℕ × ℕ))))
  | ul, _, 0 => Except.ok ul
  | ul, k, d + 1 =>
    match ul[k]? with
    | none => Except.error "IndexError: list index out of range"
    | some none => Except.error "AttributeError"
    | some (some lst) =>
      let lst2 :=
        if new_group = true ∨ lst = [] then lst ++ [(idx, idx)]
        else
          match lst.getLast? with
          | some pr =>
            if (pr.2 : ℤ) = idx_prev then lst.dropLast ++ [(pr.1, idx)]
            else lst ++ [(idx, idx)]
          | none => lst ++ [(idx, idx)]
      ulLoop new_group idx_prev idx (ul.set k (some lst2)) (k + 1) d

/-- One `for idx in idx_list` iteration of `group_underlines` (dash and dot
nodes are skipped by `continue`). -/
def groupNoteStep (time : Time) (nodes : List PNode) (idx : ℕ) (st : ULState) :
    Except String ULState :=
  match nodes[idx]? with
  | none => Except.error "IndexError: list index out of range"
  | some PNode.dash => Except.ok st
  | some PNode.dot => Except.ok st
  | some (PNode.note v l _ _) =>
    let new_group : Bool :=
      (decide (time.lower = 4) && decide (pyMod st.beat 1 = 0)) ||
      (decide (time.lower = 8) && decide (pyMod st.beat (3 / 2) = 0))
    let triplet_duration2 := if new_group then none else st.triplet_duration
    match (if v.duration.den % 3 = 0 then
             tripletStep idx v.duration new_group st.triplets triplet_duration2
           else Except.ok st.triplets) with
    | Except.error e => Except.error e
    | Except.ok triplets3 =>
      let triplet_duration3 :=
        if v.duration.den % 3 = 0 then some v.duration else triplet_duration2
      match l with
      | none => Except.error "TypeError"
      | some lv =>
        match (if lv < 0 then
                 let depth := (-lv).toNat
                 let ul2 := st.underlines_list ++
                   List.replicate (depth + 1 - st.underlines_list.length)
                     (some ([] : List (ℕ × ℕ)))
                 ulLoop new_group st.idx_prev idx ul2 1 depth
               else Except.ok st.underlines_list) with
        | Except.error e => Except.error e
        | Except.ok ul3 =>
          Except.ok ⟨ul3, triplets3, triplet_duration3, st.beat + v.duration, (idx : ℤ)⟩

def groupIdxLoop (time : Time) (nodes : List PNode) :
    List ℕ → ULState → Except String ULState
  | [], st => Except.ok st
  | idx :: rest, st =>
    match groupNoteStep time nodes idx st with
    | Except.error e => Except.error e
    | Except.ok st2 => groupIdxLoop time nodes rest st2

/-- The `for time, start_beat, idx_list in bars` loop: reset `beat` and
`idx_prev`, assert `beat >= 0`. -/
def groupBars (nodes : List PNode) : List LineBar → ULState → Except String ULState
  | [], st => Except.ok st
  | (time, start_beat, idx_list) :: rest, st =>
    if ¬0 ≤ start_beat then Except.error "AssertionError"
    else
      match groupIdxLoop time nodes idx_list
          ⟨st.underlines_list, st.triplets, st.triplet_duration, start_beat, -9⟩ with
      | Except.error e => Except.error e
      | Except.ok st2 => groupBars nodes rest st2

/-- `group_underlines` on one line. -/
def group_underlines_line (line : Line) : Except String GLine :=
  match groupBars line.nodes line.bars ⟨[none], [], none, 0, -9⟩ with
  | Except.error e => Except.error e
  | Except.ok st =>
    Except.ok ⟨line.nodes, line.bars, line.ties, line.slurs,
      st.underlines_list, st.triplets⟩

def group_underlines_lines : List Line → Except String (List GLine)
  | [] => Except.ok []
  | l :: rest =>
    match group_underlines_line l with
    | Except.error e => Except.error e
    | Except.ok gl =>
      match group_underlines_lines rest with
      | Except.error e => Except.error e
      | Except.ok gls => Except.ok (gl :: gls)

/-- `Song.group_underlines(sections)`. -/
def Song.group_underlines : List (String × List Line) →
    Except String (List (String × List GLine))
  | [] => Except.ok []
  | (tag, lines) :: rest =>
    match group_underlines_lines lines with
    | Except.error e => Except.error e
    | Except.ok gls =>
      match Song.group_underlines rest with
      | Except.error e => Except.error e
      | Except.ok rest2 => Except.ok ((tag, gls) :: rest2)

/-- Size invariant of the running triplet group list: every group except
the last has exactly 3 notes, and every group has between 1 and 3. -/
def TInv (ts : List (List ℕ)) : Prop :=
  (∀ g ∈ ts.dropLast, g.length = 3) ∧ (∀ g ∈ ts, 1 ≤ g.length ∧ g.length ≤ 3)

lemma getLast?_decomp {α} (l : List α) (g : α) (h : l.getLast? = some g) :
    l = l.dropLast ++ [g] := by
  induction l with
  | nil => exact Option.noConfusion h
  | cons a t ih =>
    cases t with
    | nil =>
      rw [List.getLast?_singleton, Option.some_inj] at h
      rw [h]
      rfl
    | cons b t2 =>
      rw [List.getLast?_cons_cons] at h
      rw [List.dropLast_cons₂, List.cons_append, ← ih h]

lemma tripletStep_inv (idx : ℕ) (dur : ℚ) (ng : Bool) (ts : List (List ℕ))
    (td : Option ℚ) (ts2 : List (List ℕ)) (hinv : TInv ts)
    (h : tripletStep idx dur ng ts td = Except.ok ts2) : TInv ts2 := by
  have hmem3 : ∀ g, ts.getLast? = some g → g.length = 3 → ∀ g2 ∈ ts, g2.length = 3 := by
    intro g hg h3 g2 hg2
    rw [getLast?_decomp ts g hg] at hg2
    rcases List.mem_append.1 hg2 with hg2 | hg2
    · exact hinv.1 g2 hg2
    · rw [List.mem_singleton.1 hg2]
      exact h3
  have happ : ∀ g, ts.getLast? = some g → g.length = 3 → TInv (ts ++ [[idx]]) := by
    intro g hg h3
    constructor
    · intro g2 hg2
      rw [List.dropLast_concat] at hg2
      exact hmem3 g hg h3 g2 hg2
    · intro g2 hg2
      rcases List.mem_append.1 hg2 with hg2 | hg2
      · exact hinv.2 g2 hg2
      · rw [List.mem_singleton.1 hg2]
        exact ⟨le_refl 1, by norm_num⟩
  have hnil : ts.getLast? = none → TInv (ts ++ [[idx]]) := by
    intro hg
    rw [List.getLast?_eq_none_iff.mp hg]
    constructor
    · intro g2 hg2
      simp at hg2
    · intro g2 hg2
      rw [List.mem_singleton.1 hg2]
      exact ⟨le_refl 1, by norm_num⟩
  simp only [tripletStep] at h
  split at h
  · split at h
    next g hg =>
      split at h
      · exact Except.noConfusion h
      next hlen =>
        rw [Except.ok.injEq] at h
        rw [← h]
        exact happ g hg (not_ne_iff.mp hlen)
    next hg =>
      rw [Except.ok.injEq] at h
      rw [← h]
      exact hnil hg
  · split at h
    next g hg =>
      split at h
      next hlen =>
        rw [Except.ok.injEq] at h
        rw [← h]
        exact happ g hg hlen
      next hlen =>
        rw [Except.ok.injEq] at h
        rw [← h]
        have hgmem : g ∈ ts := by
          rw [getLast?_decomp ts g hg]
          exact List.mem_append_right _ (List.mem_singleton.2 rfl)
        have hgb := hinv.2 g hgmem
        constructor
        · intro g2 hg2
          rw [List.dropLast_concat] at hg2
          exact hinv.1 g2 hg2
        · intro g2 hg2
          rcases List.mem_append.1 hg2 with hg2 | hg2
          · exact hinv.2 g2 (List.mem_of_mem_dropLast hg2)
          · rw [List.mem_singleton.1 hg2, List.length_append, List.length_singleton]
            have : g.length ≤ 2 := by omega
            omega
    next hg =>
      rw [Except.ok.injEq] at h
      rw [← h]
      exact hnil hg

lemma groupNoteStep_triplets (time : Time) (nodes : List PNode) (idx : ℕ)
    (st st2 : ULState) (hinv : TInv st.triplets)
    (h : groupNoteStep time nodes idx st = Except.ok st2) : TInv st2.triplets := by
  simp only [groupNoteStep] at h
  split at h <;> try exact Except.noConfusion h
  · rw [Except.ok.injEq] at h
    rw [← h]
    exact hinv
  · rw [Except.ok.injEq] at h
    rw [← h]
    exact hinv
  · split at h
    · exact Except.noConfusion h
    next triplets3 heqT =>
      split at h <;> try exact Except.noConfusion h
      split at h
      · exact Except.noConfusion h
      next ul3 hequ =>
        rw [Except.ok.injEq] at h
        rw [← h]
        show TInv triplets3
        split at heqT
        · exact tripletStep_inv _ _ _ _ _ _ hinv heqT
        · rw [Except.ok.injEq] at heqT
          rw [← heqT]
          exact hinv

lemma groupIdxLoop_triplets (time : Time) (nodes : List PNode) :
    ∀ idxs st st2, TInv st.triplets →
      groupIdxLoop time nodes idxs st = Except.ok st2 → TInv st2.triplets := by
  intro idxs
  induction idxs with
  | nil =>
    intro st st2 hinv h
    rw [groupIdxLoop, Except.ok.injEq] at h
    rw [← h]
    exact hinv
  | cons idx rest ih =>
    intro st st2 hinv h
    rw [groupIdxLoop] at h
    split at h
    next e heq => exact Except.noConfusion h
    next stm heq =>
      exact ih stm st2 (groupNoteStep_triplets time nodes idx st stm hinv heq) h

lemma groupBars_triplets (nodes : List PNode) :
    ∀ bars st st2, TInv st.triplets →
      groupBars nodes bars st = Except.ok st2 → TInv st2.triplets := by
  intro bars
  induction bars with
  | nil =>
    intro st st2 hinv h
    rw [groupBars, Except.ok.injEq] at h
    rw [← h]
    exact hinv
  | cons bar rest ih =>
    intro st st2 hinv h
    rcases bar with ⟨time, start_beat, idx_list⟩
    rw [groupBars] at h
    split at h
    · exact Except.noConfusion h
    · split at h
      next e heq => exact Except.noConfusion h
      next stm heq =>
        exact ih stm st2 (groupIdxLoop_triplets time nodes idx_list
          ⟨st.underlines_list, st.triplets, st.triplet_duration, start_beat, -9⟩ stm hinv heq) h

lemma group_underlines_line_triplets (line : Line) (gl : GLine)
    (h : group_underlines_line line = Except.ok gl) : TInv gl.triplets := by
  simp only [group_underlines_line] at h
  split at h
  · exact Except.noConfusion h
  next st heq =>
    rw [Except.ok.injEq] at h
    rw [← h]
    exact groupBars_triplets line.nodes line.bars ⟨[none], [], none, 0, -9⟩ st
      ⟨fun g hg => absurd hg (List.not_mem_nil g), fun g hg => absurd hg (List.not_mem_nil g)⟩
      heq

lemma group_underlines_lines_triplets :
    ∀ lines out, group_underlines_lines lines = Except.ok out →
      ∀ gl ∈ out, TInv gl.triplets := by
  intro lines
  induction lines with
  | nil =>
    intro out h gl hgl
    rw [group_underlines_lines, Except.ok.injEq] at h
    rw [← h] at hgl
    exact absurd hgl (List.not_mem_nil gl)
  | cons l rest ih =>
    intro out h gl hgl
    rw [group_underlines_lines] at h
    split at h
    next e heq => exact Except.noConfusion h
    next gl1 heq =>
      split at h
      next e heq2 => exact Except.noConfusion h
      next gls heq2 =>
        rw [Except.ok.injEq] at h
        rw [← h] at hgl
        rcases List.mem_cons.1 hgl with hgl | hgl
        · rw [hgl]
          exact group_underlines_line_triplets l gl1 heq
        · exact ih gls heq2 gl hgl

/-- C6 (amended): in `Song.group_underlines`, within each line every
triplet group EXCEPT the last holds exactly 3 notes, and every group holds
between 1 and 3; the `FormatError` for a short group is raised only when a
group is closed by the start of ANOTHER triplet group — a group still
incomplete when its line ends is NOT checked and passes silently, refuting
the final clause of the claim (see
`group_underlines_incomplete_final_triplet`). -/
theorem group_underlines_triplet_sizes :
    ∀ (sections : List (String × List Line)) (out : List (String × List GLine)),
      Song.group_underlines sections = Except.ok out →
      ∀ sec ∈ out, ∀ gl ∈ sec.2,
        (∀ g ∈ gl.triplets.dropLast, g.length = 3) ∧
        (∀ g ∈ gl.triplets, 1 ≤ g.length ∧ g.length ≤ 3) := by
  intro sections
  induction sections with
  | nil =>
    intro out h sec hsec
    rw [Song.group_underlines, Except.ok.injEq] at h
    rw [← h] at hsec
    exact absurd hsec (List.not_mem_nil sec)
  | cons s rest ih =>
    intro out h sec hsec
    rcases s with ⟨tag, lines⟩
    rw [Song.group_underlines] at h
    split at h
    next e heq => exact Except.noConfusion h
    next gls heq =>
      split at h
      next e heq2 => exact Except.noConfusion h
      next rest2 heq2 =>
        rw [Except.ok.injEq] at h
        rw [← h] at hsec
        rcases List.mem_cons.1 hsec with hsec | hsec
        · intro gl hgl
          rw [hsec] at hgl
          exact group_underlines_lines_triplets lines gls heq gl hgl
        · exact ih rest2 heq2 sec hsec

/-- C6 counterexample: a line that ENDS with an incomplete triplet group
(two notes of duration 1/3) passes `Song.group_underlines` without any
error, leaving a completed 2-note triplet group — no `FormatError` is
raised for a group still incomplete when its line ends. -/
theorem group_underlines_incomplete_final_triplet :
    Song.group_underlines [("A",
      [⟨[PNode.note
           { acc := none, _name := 1, octave := 0, duration := 1/3, lines := some 0,
             dots := some 0, tie := (false, false) } (some 0) (some 0) none,
         PNode.note
           { acc := none, _name := 2, octave := 0, duration := 1/3, lines := some 0,
             dots := some 0, tie := (false, false) } (some 0) (some 0) none],
        [(⟨some 4, 4, none⟩, 0, [0, 1])], [], []⟩])] =
      Except.ok [("A",
        [⟨[PNode.note
             { acc := none, _name := 1, octave := 0, duration := 1/3, lines := some 0,
               dots := some 0, tie := (false, false) } (some 0) (some 0) none,
           PNode.note
             { acc := none, _name := 2, octave := 0, duration := 1/3, lines := some 0,
               dots := some 0, tie := (false, false) } (some 0) (some 0) none],
          [(⟨some 4, 4, none⟩, 0, [0, 1])], [], [], [none], [[0, 1]]⟩])] ∧
    ∃ g ∈ ([[0, 1]] : List (List ℕ)), ¬g.length = 3 := by
  constructor
  · decide
  · decide

theorem group_underlines_triplet_sizes_witness :
    1 ≤ ([0, 1, 2] : List ℕ).length ∧ ([0, 1, 2] : List ℕ).length ≤ 3 :=
  (group_underlines_triplet_sizes
    [("A",
      [⟨[PNode.note
           { acc := none, _name := 1, octave := 0, duration := 1/3, lines := some 0,
             dots := some 0, tie := (false, false) } (some 0) (some 0) none,
         PNode.note
           { acc := none, _name := 2, octave := 0, duration := 1/3, lines := some 0,
             dots := some 0, tie := (false, false) } (some 0) (some 0) none,
         PNode.note
           { acc := none, _name := 3, octave := 0, duration := 1/3, lines := some 0,
             dots := some 0, tie := (false, false) } (some 0) (some 0) none],
        [(⟨some 4, 4, none⟩, 0, [0, 1, 2])], [], []⟩])]
    [("A",
      [(⟨[PNode.note
            { acc := none, _name := 1, octave := 0, duration := 1/3, lines := some 0,
              dots := some 0, tie := (false, false) } (some 0) (some 0) none,
          PNode.note
            { acc := none, _name := 2, octave := 0, duration := 1/3, lines := some 0,
              dots := some 0, tie := (false, false) } (some 0) (some 0) none,
          PNode.note
            { acc := none, _name := 3, octave := 0, duration := 1/3, lines := some 0,
              dots := some 0, tie := (false, false) } (some 0) (some 0) none],
        [(⟨some 4, 4, none⟩, 0, [0, 1, 2])], [], [], [none], [[0, 1, 2]]⟩ : GLine)])]
    (by decide)
    ("A",
      [(⟨[PNode.note
            { acc := none, _name := 1, octave := 0, duration := 1/3, lines := some 0,
              dots := some 0, tie := (false, false) } (some 0) (some 0) none,
          PNode.note
            { acc := none, _name := 2, octave := 0, duration := 1/3, lines := some 0,
              dots := some 0, tie := (false, false) } (some 0) (some 0) none,
          PNode.note
            { acc := none, _name := 3, octave := 0, duration := 1/3, lines := some 0,
              dots := some 0, tie := (false, false) } (some 0) (some 0) none],
        [(⟨some 4, 4, none⟩, 0, [0, 1, 2])], [], [], [none], [[0, 1, 2]]⟩ : GLine)])
    (by decide)
    (⟨[PNode.note
         { acc := none, _name := 1, octave := 0, duration := 1/3, lines := some 0,
           dots := some 0, tie := (false, false) } (some 0) (some 0) none,
       PNode.note
         { acc := none, _name := 2, octave := 0, duration := 1/3, lines := some 0,
           dots := some 0, tie := (false, false) } (some 0) (some 0) none,
       PNode.note
         { acc := none, _name := 3, octave := 0, duration := 1/3, lines := some 0,
           dots := some 0, tie := (false, false) } (some 0) (some 0) none],
      [(⟨some 4, 4, none⟩, 0, [0, 1, 2])], [], [], [none], [[0, 1, 2]]⟩ : GLine)
    (by decide)).2 [0, 1, 2] (by decide)

/-! ### `writer.py`: `Curve` and `LatexWriter._calc_distance` (§ layout)

Python floats (`0.2` steps of `dis_x`) are idealized as exact rationals
(`1/5`); the claims under scrutiny are about the ordering of the computed
distances, which the idealization preserves.  The constant per-triplet
field `dis_y_middle` (never read by anything proved here) is omitted. -/

inductive CurveKind where
  | tie
  | slur
  | triplet
deriving DecidableEq, Repr

/-- A `Curve` together with its `NodeRange` (`start`, `end`) and the kind
of the range object (`Tie`, `Slur` or `Triplet`). -/
structure Curve0 where
  kind : CurveKind
  start : ℕ
  end_ : ℕ
deriving DecidableEq, Repr

def Curve0.equals (s o : Curve0) : Prop :=
  s.start = o.start ∧ s.end_ = o.end_

def Curve0.contains (s o : Curve0) : Prop :=
  s.start ≤ o.start ∧ o.end_ ≤ s.end_

def Curve0.contains_properly (s o : Curve0) : Prop :=
  s.start < o.start ∧ o.end_ < s.end_

def Curve0.intersects (s o : Curve0) : Prop :=
  s.start < o.end_ ∧ o.start < s.end_

def Curve0.crosses (s o : Curve0) : Prop :=
  s.intersects o ∧ ¬s.contains o ∧ ¬o.contains s

instance (s o : Curve0) : Decidable (s.equals o) := by
  unfold Curve0.equals; infer_instance

instance (s o : Curve0) : Decidable (s.contains o) := by
  unfold Curve0.contains; infer_instance

instance (s o : Curve0) : Decidable (s.contains_properly o) := by
  unfold Curve0.contains_properly; infer_instance

instance (s o : Curve0) : Decidable (s.intersects o) := by
  unfold Curve0.intersects; infer_instance

instance (s o : Curve0) : Decidable (s.crosses o) := by
  unfold Curve0.crosses; infer_instance

/-- The index pairs of `itertools.combinations(curves, 2)`. -/
def combPairs (n : ℕ) : List (ℕ × ℕ) :=
  (List.range n).flatMap (fun i => ((List.range n).filter (fun j => i < j)).map (fun j => (i, j)))

/-- The triplet-hiding pass of `_calc_distance`: a slur that contains or
crosses a triplet is hidden; any other curve doing so is an error. -/
def markHiddenLoop (curves : List Curve0) : List (ℕ × ℕ) → List Bool → Except String (List Bool)
  | [], hidden => Except.ok hidden
  | (i, j) :: rest, hidden =>
    match curves[i]?, curves[j]? with
    | some c0, some c1 =>
      if ¬c1.kind = CurveKind.triplet then markHiddenLoop curves rest hidden
      else
        match (if c0.contains c1 then some "contains"
               else if c0.crosses c1 then some "crosses"
               else none) with
        | none => markHiddenLoop curves rest hidden
        | some _ =>
          if c0.kind = CurveKind.slur then markHiddenLoop curves rest (hidden.set i true)
          else Except.error "ValueError: a curve contains or crosses a triplet"
    | _, _ => Except.error "IndexError: list index out of range"

/-- `nodes[idx].value.octave` (a dash or dot node has a string value and
no octave). -/
def octaveOf : PNode → Except String ℤ
  | PNode.note v _ _ _ => Except.ok v.octave
  | _ => Except.error "AttributeError"

/-- The `for kk, cc in enumerate(curves)` loop of `calc_dis_y`, taking the
memoized recursive call as `rec`. -/
def disYFoldF (curves : List Curve0) (hidden : List Bool) (c : Curve0) (k : ℕ)
    (rec : ℕ → Except String (Option ℚ)) : List ℕ → ℚ → Except String ℚ
  | [], dis => Except.ok dis
  | kk :: rest, dis =>
    if kk = k then disYFoldF curves hidden c k rec rest dis
    else
      match curves[kk]?, hidden[kk]? with
      | some cc, some hid =>
        if hid then disYFoldF curves hidden c k rec rest dis
        else if c.equals cc then Except.error "ValueError: duplicate curves"
        else if c.contains_properly cc then
          match rec kk with
          | Except.error e => Except.error e
          | Except.ok none => Except.error "TypeError"
          | Except.ok (some v) => disYFoldF curves hidden c k rec rest (max dis v)
        else if c.contains cc then
          match rec kk with
          | Except.error e => Except.error e
          | Except.ok none => Except.error "TypeError"
          | Except.ok (some v) => disYFoldF curves hidden c k rec rest (max dis (v + 1))
        else disYFoldF curves hidden c k rec rest dis
      | _, _ => Except.error "IndexError: list index out of range"

/-- `calc_dis_y(k)` (fuel-indexed recursion replacing memoization; a hidden
curve yields `None`). -/
def calcDisY (curves : List Curve0) (hidden : List Bool) (nodes : List PNode) :
    ℕ → ℕ → Except String (Option ℚ)
  | 0, _ => Except.error "RecursionError"
  | fuel + 1, k =>
    match curves[k]?, hidden[k]? with
    | some c, some hid =>
      if hid then Except.ok none
      else
        match nodes[c.start]? with
        | none => Except.error "IndexError: list index out of range"
        | some pn1 =>
          match octaveOf pn1 with
          | Except.error e => Except.error e
          | Except.ok o1 =>
            match nodes[c.end_]? with
            | none => Except.error "IndexError: list index out of range"
            | some pn2 =>
              match octaveOf pn2 with
              | Except.error e => Except.error e
              | Except.ok o2 =>
                let base : ℚ := if 1 ≤ o1 ∨ 1 ≤ o2 then 5 else 2
                match disYFoldF curves hidden c k
                    (fun kk => calcDisY curves hidden nodes fuel kk)
                    (List.range curves.length) base with
                | Except.error e => Except.error e
                | Except.ok dis => Except.ok (some dis)
    | _, _ => Except.error "IndexError: list index out of range"

/-- The `for kk, cc in enumerate(curves)` loop of `calc_dis_x`. -/
def disXFoldF (curves : List Curve0) (hidden : List Bool) (c : Curve0) (k : ℕ)
    (rec : ℕ → Except String (Option ℚ)) : List ℕ → ℚ → Except String ℚ
  | [], dis => Except.ok dis
  | kk :: rest, dis =>
    if kk = k then disXFoldF curves hidden c k rec rest dis
    else
      match curves[kk]?, hidden[kk]? with
      | some cc, some hid =>
        if hid then disXFoldF curves hidden c k rec rest dis
        else if cc.contains c ∧ ¬cc.contains_properly c then
          match rec kk with
          | Except.error e => Except.error e
          | Except.ok none => Except.error "TypeError"
          | Except.ok (some v) => disXFoldF curves hidden c k rec rest (max dis (v + 1/5))
        else disXFoldF curves hidden c k rec rest dis
      | _, _ => Except.error "IndexError: list index out of range"

/-- `calc_dis_x(k)` (fuel-indexed; base `0.2` idealized as `1/5`). -/
def calcDisX (curves : List Curve0) (hidden : List Bool) :
    ℕ → ℕ → Except String (Option ℚ)
  | 0, _ => Except.error "RecursionError"
  | fuel + 1, k =>
    match curves[k]?, hidden[k]? with
    | some c, some hid =>
      if hid then Except.ok none
      else
        match disXFoldF curves hidden c k
            (fun kk => calcDisX curves hidden fuel kk)
            (List.range curves.length) (1/5) with
        | Except.error e => Except.error e
        | Except.ok dis => Except.ok (some dis)
    | _, _ => Except.error "IndexError: list index out of range"

/-- Run `f` on every index of `range n` in order, collecting the results. -/
def collectE (f : ℕ → Except String (Option ℚ)) : List ℕ → Except String (List (Option ℚ))
  | [] => Except.ok []
  | i :: rest =>
    match f i with
    | Except.error e => Except.error e
    | Except.ok v =>
      match collectE f rest with
      | Except.error e => Except.error e
      | Except.ok vs => Except.ok (v :: vs)

/-- `LatexWriter._calc_distance(curves, nodes)`: the hidden flags and the
computed `dis_y` / `dis_x` of every curve (`None` for hidden curves). -/
def LatexWriter._calc_distance (curves : List Curve0) (nodes : List PNode) :
    Except String (List Bool × List (Option ℚ) × List (Option ℚ)) :=
  match markHiddenLoop curves (combPairs curves.length)
      (List.replicate curves.length false) with
  | Except.error e => Except.error e
  | Except.ok hidden =>
    match collectE (fun k => calcDisY curves hidden nodes (curves.length + 1) k)
        (List.range curves.length) with
    | Except.error e => Except.error e
    | Except.ok ys =>
      match collectE (fun k => calcDisX curves hidden (curves.length + 1) k)
          (List.range curves.length) with
      | Except.error e => Except.error e
      | Except.ok xs => Except.ok (hidden, ys, xs)

lemma disXFoldF_agree (curves : List Curve0) (hidden : List Bool) (c : Curve0) (k : ℕ)
    (rec rec2 : ℕ → Except String (Option ℚ))
    (hag : ∀ kk r, rec kk = Except.ok r → rec2 kk = Except.ok r) :
    ∀ l dis d, disXFoldF curves hidden c k rec l dis = Except.ok d →
      disXFoldF curves hidden c k rec2 l dis = Except.ok d := by
  intro l
  induction l with
  | nil =>
    intro dis d h
    exact h
  | cons kk0 rest ih =>
    intro dis d h
    rw [disXFoldF] at h ⊢
    by_cases hk : kk0 = k
    · rw [if_pos hk] at h ⊢
      exact ih dis d h
    · rw [if_neg hk] at h ⊢
      cases hcc0 : curves[kk0]? with
      | none =>
        simp only [hcc0] at h
        exact Except.noConfusion h
      | some cc0 =>
        cases hhid0 : hidden[kk0]? with
        | none =>
          simp only [hcc0, hhid0] at h
          exact Except.noConfusion h
        | some hid0 =>
          simp only [hcc0, hhid0] at h ⊢
          cases hid0 with
          | true =>
            rw [if_pos rfl] at h ⊢
            exact ih dis d h
          | false =>
            rw [if_neg (by simp)] at h ⊢
            by_cases hq : cc0.contains c ∧ ¬cc0.contains_properly c
            · rw [if_pos hq] at h ⊢
              cases hr : rec kk0 with
              | error e =>
                simp only [hr] at h
                exact Except.noConfusion h
              | ok v =>
                cases v with
                | none =>
                  simp only [hr] at h
                  exact Except.noConfusion h
                | some v2 =>
                  simp only [hr] at h
                  simp only [hag kk0 (some v2) hr]
                  exact ih _ d h
            · rw [if_neg hq] at h ⊢
              exact ih dis d h

lemma calcDisX_mono (curves : List Curve0) (hidden : List Bool) :
    ∀ fuel k r, calcDisX curves hidden fuel k = Except.ok r →
      calcDisX curves hidden (fuel + 1) k = Except.ok r := by
  intro fuel
  induction fuel with
  | zero =>
    intro k r h
    exact Except.noConfusion h
  | succ fuel ih =>
    intro k r h
    rw [calcDisX] at h ⊢
    cases hck : curves[k]? with
    | none =>
      simp only [hck] at h
      exact Except.noConfusion h
    | some c =>
      cases hhk : hidden[k]? with
      | none =>
        simp only [hck, hhk] at h
        exact Except.noConfusion h
      | some hid =>
        simp only [hck, hhk] at h ⊢
        cases hid with
        | true =>
          rw [if_pos rfl] at h ⊢
          exact h
        | false =>
          rw [if_neg (by simp)] at h ⊢
          cases heqF : disXFoldF curves hidden c k
              (fun kk => calcDisX curves hidden fuel kk) (List.range curves.length)
              (1/5) with
          | error e =>
            simp only [heqF] at h
            exact Except.noConfusion h
          | ok dis =>
            simp only [heqF] at h
            simp only [disXFoldF_agree curves hidden c k _ _
              (fun kk r2 hr2 => ih kk r2 hr2) _ _ _ heqF]
            exact h

lemma disXFoldF_bound (curves : List Curve0) (hidden : List Bool) (c : Curve0) (k : ℕ)
    (rec : ℕ → Except String (Option ℚ)) :
    ∀ l dis d, disXFoldF curves hidden c k rec l dis = Except.ok d →
      dis ≤ d ∧
      ∀ kk ∈ l, ¬kk = k → ∀ cc : Curve0, curves[kk]? = some cc → hidden[kk]? = some false →
        cc.contains c → ¬cc.contains_properly c →
        ∃ v, rec kk = Except.ok (some v) ∧ v + 1/5 ≤ d := by
  intro l
  induction l with
  | nil =>
    intro dis d h
    rw [disXFoldF, Except.ok.injEq] at h
    exact ⟨le_of_eq h, fun kk hkk => absurd hkk (List.not_mem_nil kk)⟩
  | cons kk0 rest ih =>
    intro dis d h
    rw [disXFoldF] at h
    by_cases hk : kk0 = k
    · rw [if_pos hk] at h
      obtain ⟨h1, h2⟩ := ih dis d h
      refine ⟨h1, ?_⟩
      intro kk hkk hne cc hcc hhid hcont hprop
      rcases List.mem_cons.1 hkk with hkk | hkk
      · exact absurd (hkk.trans hk) hne
      · exact h2 kk hkk hne cc hcc hhid hcont hprop
    · rw [if_neg hk] at h
      cases hcc0 : curves[kk0]? with
      | none =>
        simp only [hcc0] at h
        exact Except.noConfusion h
      | some cc0 =>
        cases hhid0 : hidden[kk0]? with
        | none =>
          simp only [hcc0, hhid0] at h
          exact Except.noConfusion h
        | some hid0 =>
          simp only [hcc0, hhid0] at h
          cases hid0 with
          | true =>
            rw [if_pos rfl] at h
            obtain ⟨h1, h2⟩ := ih dis d h
            refine ⟨h1, ?_⟩
            intro kk hkk hne cc hcc hhid hcont hprop
            rcases List.mem_cons.1 hkk with hkk | hkk
            · rw [hkk] at hhid
              rw [hhid0, Option.some_inj] at hhid
              exact absurd hhid.symm Bool.false_ne_true
            · exact h2 kk hkk hne cc hcc hhid hcont hprop
          | false =>
            rw [if_neg (by simp)] at h
            by_cases hq : cc0.contains c ∧ ¬cc0.contains_properly c
            · rw [if_pos hq] at h
              cases hr : rec kk0 with
              | error e =>
                simp only [hr] at h
                exact Except.noConfusion h
              | ok v =>
                cases v with
                | none =>
                  simp only [hr] at h
                  exact Except.noConfusion h
                | some v2 =>
                  simp only [hr] at h
                  obtain ⟨h1, h2⟩ := ih _ d h
                  refine ⟨le_trans (le_max_left _ _) h1, ?_⟩
                  intro kk hkk hne cc hcc hhid hcont hprop
                  rcases List.mem_cons.1 hkk with hkk | hkk
                  · rw [hkk]
                    exact ⟨v2, hr, le_trans (le_max_right _ _) h1⟩
                  · exact h2 kk hkk hne cc hcc hhid hcont hprop
            · rw [if_neg hq] at h
              obtain ⟨h1, h2⟩ := ih dis d h
              refine ⟨h1, ?_⟩
              intro kk hkk hne cc hcc hhid hcont hprop
              rcases List.mem_cons.1 hkk with hkk | hkk
              · rw [hkk] at hcc
                rw [hcc0, Option.some_inj] at hcc
                rw [hcc] at hq
                exact absurd ⟨hcont, hprop⟩ hq
              · exact h2 kk hkk hne cc hcc hhid hcont hprop

lemma collectE_spec (f : ℕ → Except String (Option ℚ)) :
    ∀ l xs, collectE f l = Except.ok xs →
      xs.length = l.length ∧
      ∀ j i : ℕ, l[j]? = some i → ∃ v, f i = Except.ok v ∧ xs[j]? = some v := by
  intro l
  induction l with
  | nil =>
    intro xs h
    rw [collectE, Except.ok.injEq] at h
    refine ⟨by rw [← h]; rfl, ?_⟩
    intro j i hj
    rw [List.getElem?_nil] at hj
    exact Option.noConfusion hj
  | cons i0 rest ih =>
    intro xs h
    rw [collectE] at h
    split at h
    next e heq => exact Except.noConfusion h
    next v heq =>
      split at h
      next e heq2 => exact Except.noConfusion h
      next vs heq2 =>
        rw [Except.ok.injEq] at h
        obtain ⟨hlen, hspec⟩ := ih vs heq2
        refine ⟨by rw [← h]; simp [hlen], ?_⟩
        intro j i hj
        cases j with
        | zero =>
          rw [List.getElem?_cons_zero, Option.some_inj] at hj
          rw [← h, ← hj]
          exact ⟨v, heq, by simp⟩
        | succ j2 =>
          rw [List.getElem?_cons_succ] at hj
          obtain ⟨v2, hv2, hx2⟩ := hspec j2 i hj
          rw [← h]
          exact ⟨v2, hv2, by simp [hx2]⟩

/-- C8 (amended): for every visible (non-hidden) curve `c` of a line, the
horizontal trim `dis_x` computed by `_calc_distance` is at least `0.2`,
and for every OTHER visible curve that contains `c` WITH at least one
shared endpoint (`contains` but not `contains_properly`), `c`'s `dis_x` is
at least that curve's `dis_x + 0.2`.  The claim's weaker trigger —
containment "without sharing both endpoints", which includes PROPER
containment — is refuted by `calc_dis_x_proper_containment_no_bump`:
proper containment does not raise `dis_x` at all. -/
theorem calc_distance_dis_x (curves : List Curve0) (nodes : List PNode)
    (hidden : List Bool) (ys xs : List (Option ℚ))
    (h : LatexWriter._calc_distance curves nodes = Except.ok (hidden, ys, xs)) :
    ∀ (k : ℕ) (c : Curve0), curves[k]? = some c → hidden[k]? = some false →
      ∃ dx, xs[k]? = some (some dx) ∧ 1/5 ≤ dx ∧
        ∀ (kk : ℕ) (cc : Curve0), ¬kk = k → curves[kk]? = some cc →
          hidden[kk]? = some false →
          cc.contains c → ¬cc.contains_properly c →
          ∃ dxx, xs[kk]? = some (some dxx) ∧ dxx + 1/5 ≤ dx := by
  intro k c hck hhk
  rw [LatexWriter._calc_distance] at h
  cases heqH : markHiddenLoop curves (combPairs curves.length)
      (List.replicate curves.length false) with
  | error e =>
    simp only [heqH] at h
    exact Except.noConfusion h
  | ok hidden0 =>
    simp only [heqH] at h
    cases heqY : collectE (fun k => calcDisY curves hidden0 nodes (curves.length + 1) k)
        (List.range curves.length) with
    | error e =>
      simp only [heqY] at h
      exact Except.noConfusion h
    | ok ys0 =>
      simp only [heqY] at h
      cases heqX : collectE (fun k => calcDisX curves hidden0 (curves.length + 1) k)
          (List.range curves.length) with
      | error e =>
        simp only [heqX] at h
        exact Except.noConfusion h
      | ok xs0 =>
        simp only [heqX] at h
        simp only [Except.ok.injEq, Prod.mk.injEq] at h
        obtain ⟨hh, hy, hx⟩ := h
        subst hh
        subst hy
        subst hx
        have hkn : k < curves.length := by
          by_contra hge
          rw [List.getElem?_eq_none (le_of_not_lt hge)] at hck
          exact Option.noConfusion hck
        obtain ⟨hlen, hspec⟩ := collectE_spec _ _ _ heqX
        obtain ⟨r, hr, hxk⟩ := hspec k k (by rw [List.getElem?_range hkn])
        rw [calcDisX] at hr
        simp only [hck, hhk] at hr
        rw [if_neg (by simp)] at hr
        split at hr
        next e heqF => exact Except.noConfusion hr
        next dis heqF =>
          rw [Except.ok.injEq] at hr
          obtain ⟨hd1, hd2⟩ := disXFoldF_bound curves hidden c k _ _ _ _ heqF
          refine ⟨dis, by rw [hxk, ← hr], hd1, ?_⟩
          intro kk cc hne hcck hhkk hcont hprop
          have hkkn : kk < curves.length := by
            by_contra hge
            rw [List.getElem?_eq_none (le_of_not_lt hge)] at hcck
            exact Option.noConfusion hcck
          obtain ⟨v, hv, hvd⟩ :=
            hd2 kk (List.mem_range.2 hkkn) hne cc hcck hhkk hcont hprop
          have hv2 := calcDisX_mono curves hidden curves.length kk (some v) hv
          obtain ⟨r2, hr2, hxkk⟩ := hspec kk kk (by rw [List.getElem?_range hkkn])
          rw [hv2, Except.ok.injEq] at hr2
          exact ⟨v, by rw [hxkk, ← hr2], hvd⟩

/-- C8 counterexample: a slur `(0, 3)` PROPERLY contains a tie `(1, 2)`
(no shared endpoint), yet both curves end with the base trim
`dis_x = 0.2`: proper containment never bumps `dis_x`, while the claim
("contains without sharing both endpoints") would require the tie's
`dis_x` to be at least `0.4`. -/
theorem calc_dis_x_proper_containment_no_bump :
    LatexWriter._calc_distance [⟨CurveKind.slur, 0, 3⟩, ⟨CurveKind.tie, 1, 2⟩]
        [PNode.note
           { acc := none, _name := 1, octave := 0, duration := 1, lines := some 0,
             dots := some 0, tie := (false, false) } (some 0) (some 0) none,
         PNode.note
           { acc := none, _name := 2, octave := 0, duration := 1, lines := some 0,
             dots := some 0, tie := (false, false) } (some 0) (some 0) none,
         PNode.note
           { acc := none, _name := 3, octave := 0, duration := 1, lines := some 0,
             dots := some 0, tie := (false, false) } (some 0) (some 0) none,
         PNode.note
           { acc := none, _name := 4, octave := 0, duration := 1, lines := some 0,
             dots := some 0, tie := (false, false) } (some 0) (some 0) none] =
      Except.ok ([false, false], [some 2, some 2], [some (1/5), some (1/5)]) ∧
    Curve0.contains ⟨CurveKind.slur, 0, 3⟩ ⟨CurveKind.tie, 1, 2⟩ ∧
    ¬Curve0.equals ⟨CurveKind.slur, 0, 3⟩ ⟨CurveKind.tie, 1, 2⟩ ∧
    ¬((1 : ℚ)/5 + 1/5 ≤ 1/5) := by
  refine ⟨?_, ?_, ?_, ?_⟩
  · decide
  · decide
  · decide
  · decide

theorem calc_distance_dis_x_witness :
    ∃ dx, ([some ((2 : ℚ)/5), some ((1 : ℚ)/5)] : List (Option ℚ))[0]? = some (some dx) ∧
      1/5 ≤ dx ∧
      ∀ (kk : ℕ) (cc : Curve0), ¬kk = 0 →
        ([⟨CurveKind.tie, 0, 1⟩, ⟨CurveKind.tie, 0, 2⟩] : List Curve0)[kk]? = some cc →
        ([false, false] : List Bool)[kk]? = some false →
        cc.contains ⟨CurveKind.tie, 0, 1⟩ → ¬cc.contains_properly ⟨CurveKind.tie, 0, 1⟩ →
        ∃ dxx, ([some ((2 : ℚ)/5), some ((1 : ℚ)/5)] : List (Option ℚ))[kk]? = some (some dxx) ∧
          dxx + 1/5 ≤ dx :=
  calc_distance_dis_x [⟨CurveKind.tie, 0, 1⟩, ⟨CurveKind.tie, 0, 2⟩]
    [PNode.note
       { acc := none, _name := 1, octave := 0, duration := 1, lines := some 0,
         dots := some 0, tie := (false, false) } (some 0) (some 0) none,
     PNode.note
       { acc := none, _name := 2, octave := 0, duration := 1, lines := some 0,
         dots := some 0, tie := (false, false) } (some 0) (some 0) none,
     PNode.note
       { acc := none, _name := 3, octave := 0, duration := 1, lines := some 0,
         dots := some 0, tie := (false, false) } (some 0) (some 0) none]
    [false, false] [some 2, some 3] [some (2/5), some (1/5)] (by decide)
    0 ⟨CurveKind.tie, 0, 1⟩ (by decide) (by decide)

theorem append_time_signature_empty_segments_witness :
    ∃ new,
      [((⟨some 4, 4, none⟩ : Time), (0 : ℚ),
        [{ acc := none, _name := 1, octave := 0, duration := 1,
           lines := some 0, dots := some 0, tie := (false, false) }])] =
        ([] : List Bar) ++ new ∧
      ∀ hb, new.head? = some hb → hb.2.1 = 0 :=
  append_time_signature_empty_segments.2
    (some (KeyVal.movable 1 0 [0, 0, 0, 0, 0, 0, 0, 0]))
    ⟨some 4, 4, none⟩ "|1" [] _ rfl (by decide)

end NMN
